import Mathlib

/-!
Verification development for the Texas Holdem hand engine
(Project_Texas: player.py, betting.py, evaluation.py, main.py).

The Python code is shallowly embedded: player records become a structure,
mutation becomes explicit state passing, the interactive `input()` calls
become a strategy function supplying one action per solicitation, the
`while True` betting loops become fuel-indexed recursion, and Python
exceptions (ValueError from Player.bet, TypeError from unpacking the
None that Player.option returns on unrecognized input) become an
`Except` error type.  Python integers are modelled by `Int`; Python
floor division `//` is `Int.fdiv`.  Cards and the treys evaluator are
external collaborators: the hand-strength oracle is a parameter
`score : Player → Int` (lower is better), and dealing is omitted since
no claim mentions hole cards.
-/

deriving instance DecidableEq for Except

namespace Texas

/-- Runtime errors a Python execution of the betting code can raise,
plus a marker for exhausted fuel (used to reason about termination). -/
inductive BetErr where
  | valueError
  | typeError
  | fuelOut
  deriving DecidableEq, Repr

/-- Embeds the `Player` class of player.py.  The `hand` (hole cards)
attribute is omitted: it is only read by the external evaluator, which
is abstracted as a scoring oracle.  `current_bet` is the attribute that
assign_blinds dynamically adds to blind players. -/
structure Player where
  name : String
  stack : Int
  in_hand : Bool
  amount_in_pot : Int
  is_dealer : Bool
  is_smallblind : Bool
  is_bigblind : Bool
  current_bet : Int
  deriving DecidableEq, Repr

instance : Inhabited Player :=
  ⟨⟨"", 0, true, 0, false, false, false, 0⟩⟩

/-- Player.__init__ with the given name and stack (default 1000 in the
source). -/
def mkPlayer (name : String) (stack : Int) : Player :=
  { name := name, stack := stack, in_hand := true, amount_in_pot := 0,
    is_dealer := false, is_smallblind := false, is_bigblind := false,
    current_bet := 0 }

/-- One action string typed at the console, together with the amount
typed at the follow-up prompt for Bet/Raise.  `Other` stands for any
string outside the six recognized ones. -/
inductive Action where
  | Check
  | Bet (amount : Int)
  | Fold
  | AllIn
  | Call
  | Raise (amount : Int)
  | Other (s : String)
  deriving DecidableEq, Repr

/-- Player.check: no chips are bet. -/
def Player.check (p : Player) : Player := p

/-- Player.all_in: `self.stack -= self.stack`. -/
def Player.all_in (p : Player) : Player :=
  { p with stack := p.stack - p.stack }

/-- Player.call: calls the amount, or goes all-in when
`amount >= self.stack`. -/
def Player.call (p : Player) (amount : Int) : Player :=
  if amount ≥ p.stack then p.all_in
  else { p with stack := p.stack - amount }

/-- Player.bet: raises ValueError when `amount > self.stack`, otherwise
subtracts the amount from the stack and returns it. -/
def Player.bet (p : Player) (amount : Int) : Except BetErr (Player × Int) :=
  if amount > p.stack then .error .valueError
  else .ok ({ p with stack := p.stack - amount }, amount)

/-- Player.fold: removes the player from the round. -/
def Player.fold (p : Player) : Player :=
  { p with in_hand := false }

/-- Player.option.  The argument plays the role of the `current_bet`
parameter (the amount to call).  The result pairs the updated player
with the Python return value: `some (contribution, is_raise)` for the
recognized actions, `none` for the implicit `return None` reached on an
unrecognized action string. -/
def Player.option (p : Player) (current_bet : Int) (a : Action) :
    Except BetErr (Player × Option (Int × Bool)) :=
  if p.in_hand = false then .ok (p, some (0, false))
  else if current_bet = 0 then
    match a with
    | .Check => .ok (p.check, some (0, false))
    | .Bet amount =>
        match p.bet amount with
        | .error e => .error e
        | .ok (p2, _) => .ok (p2, some (amount, true))
    | .Fold => .ok (p.fold, some (0, false))
    | .AllIn => .ok (p.all_in, some (p.stack, true))
    | .Call => .ok (p, none)
    | .Raise _ => .ok (p, none)
    | .Other _ => .ok (p, none)
  else
    match a with
    | .Call => .ok (p.call current_bet, some (current_bet, false))
    | .Raise amount =>
        match p.bet amount with
        | .error e => .error e
        | .ok (p2, _) => .ok (p2, some (amount, true))
    | .Fold => .ok (p.fold, some (0, false))
    | .AllIn => .ok (p.all_in, some (p.stack, true))
    | .Check => .ok (p, none)
    | .Bet _ => .ok (p, none)
    | .Other _ => .ok (p, none)

/-- The local state of a betting round loop in betting.py. -/
structure RoundState where
  players : List Player
  current_bet : Int
  action_index : Nat
  last_raiser_index : Nat
  total_pot : Int
  deriving DecidableEq, Repr

/-- A strategy supplies, for the k-th solicitation of the round, the
action typed for the given player facing the given amount to call.
It models the stream of console inputs. -/
abbrev Strategy := Nat → Player → Int → Action

/-- The `all(...)` generator in the loop exit tests of betting.py,
taken over `players_still_in = [p for p in players if p.in_hand]`. -/
def caughtUp (st : RoundState) : Bool :=
  (st.players.filter fun p => p.in_hand).all fun p =>
    p.amount_in_pot == st.current_bet || !p.in_hand || p.stack == 0

/-- The loop exit test: action has returned to the last raiser and
every player still in is caught up, folded or all-in. -/
def roundDone (st : RoundState) : Bool :=
  st.action_index == st.last_raiser_index && caughtUp st

/-- One iteration of the `while True` body shared by
betting_round_preflop and betting_round_postflop: the seat at
`action_index` acts if it is in hand with a positive stack (consuming
one strategy input), the contribution is applied to the player and the
pot, a raise above `current_bet` re-anchors `last_raiser_index`, and
`action_index` advances.  Unpacking the `None` returned by
Player.option on unrecognized input raises TypeError. -/
def stepOnce (σ : Strategy) (st : RoundState) (k : Nat) :
    Except BetErr (RoundState × Nat) :=
  let num_players := st.players.length
  let player := st.players.getD st.action_index default
  if player.in_hand = true ∧ 0 < player.stack then
    let to_call := st.current_bet - player.amount_in_pot
    match player.option to_call (σ k player to_call) with
    | .error e => .error e
    | .ok (_, none) => .error .typeError
    | .ok (p2, some (contribution, is_raise)) =>
      let p3 := { p2 with amount_in_pot := p2.amount_in_pot + contribution }
      let pot2 := st.total_pot + contribution
      if is_raise = true ∧ p3.amount_in_pot > st.current_bet then
        .ok ({ players := st.players.set st.action_index p3,
               current_bet := p3.amount_in_pot,
               action_index := (st.action_index + 1) % num_players,
               last_raiser_index := st.action_index,
               total_pot := pot2 }, k + 1)
      else
        .ok ({ players := st.players.set st.action_index p3,
               current_bet := st.current_bet,
               action_index := (st.action_index + 1) % num_players,
               last_raiser_index := st.last_raiser_index,
               total_pot := pot2 }, k + 1)
  else
    .ok ({ st with action_index := (st.action_index + 1) % num_players }, k)

/-- The `while True` loop of both betting rounds, indexed by fuel.
Matches the source shape: run the body, then exit if action is back at
the last raiser with everyone caught up. -/
def betLoop (σ : Strategy) : Nat → RoundState → Nat →
    Except BetErr (RoundState × Nat)
  | 0, _, _ => .error .fuelOut
  | fuel + 1, st, k =>
    match stepOnce σ st k with
    | .error e => .error e
    | .ok (st2, k2) =>
      if roundDone st2 then .ok (st2, k2) else betLoop σ fuel st2 k2

/-- betting_round_preflop: current_bet starts at the big blind amount,
UTG (seat after the big blind) acts first and is the initial last
raiser. -/
def betting_round_preflop (σ : Strategy) (fuel : Nat) (players : List Player)
    (bb_index : Nat) (total_pot : Int) (bb_amount : Int) (k : Nat) :
    Except BetErr (RoundState × Nat) :=
  let num_players := players.length
  let first := (bb_index + 1) % num_players
  betLoop σ fuel
    { players := players, current_bet := bb_amount,
      action_index := first, last_raiser_index := first,
      total_pot := total_pot } k

/-- betting_round_postflop: every amount_in_pot is reset to 0,
current_bet starts at 0, the seat after the dealer acts first. -/
def betting_round_postflop (σ : Strategy) (fuel : Nat) (players : List Player)
    (dealer_position : Nat) (total_pot : Int) (k : Nat) :
    Except BetErr (RoundState × Nat) :=
  let players2 := players.map fun p => { p with amount_in_pot := 0 }
  let num_players := players.length
  let first := (dealer_position + 1) % num_players
  betLoop σ fuel
    { players := players2, current_bet := 0,
      action_index := first, last_raiser_index := first,
      total_pot := total_pot } k

/-- In-place update of one list position (Python mutation of
`players[i]`); out-of-range indices leave the list unchanged. -/
def updAt : Nat → (Player → Player) → List Player → List Player
  | _, _, [] => []
  | 0, f, p :: ps => f p :: ps
  | i + 1, f, p :: ps => p :: updAt i f ps

/-- Result tuple of assign_blinds. -/
structure BlindResult where
  players : List Player
  sb_index : Nat
  bb_index : Nat
  pot : Int
  deriving DecidableEq, Repr

/-- The per-player mutations of assign_blinds, named for the proofs:
the flag reset of the first loop, the three flag assignments, and the
blind deduction (which also sets `current_bet` and `amount_in_pot`). -/
def clearFlags (p : Player) : Player :=
  { p with is_dealer := false, is_smallblind := false, is_bigblind := false }

def setDealer (p : Player) : Player := { p with is_dealer := true }

def setSB (p : Player) : Player := { p with is_smallblind := true }

def setBB (p : Player) : Player := { p with is_bigblind := true }

def blindDeduct (c : Int) (p : Player) : Player :=
  { p with stack := p.stack - c, current_bet := c, amount_in_pot := c }

/-- assign_blinds of betting.py: clear the three role flags on every
player, compute the blind seats from the dealer position, set the
flags, compute both clamped contributions from the stacks as they are
at entry, then deduct them in order (small blind first). -/
def assign_blinds (players : List Player) (dealer_position : Nat)
    (sb_amount bb_amount : Int) : BlindResult :=
  let cleared := players.map clearFlags
  let n := cleared.length
  let sb_index := (dealer_position + 1) % n
  let bb_index := (dealer_position + 2) % n
  let ps1 := updAt dealer_position setDealer cleared
  let ps2 := updAt sb_index setSB ps1
  let ps3 := updAt bb_index setBB ps2
  let sb_contribution := min sb_amount (ps3.getD sb_index default).stack
  let bb_contribution := min bb_amount (ps3.getD bb_index default).stack
  let ps4 := updAt sb_index (blindDeduct sb_contribution) ps3
  let ps5 := updAt bb_index (blindDeduct bb_contribution) ps4
  { players := ps5, sb_index := sb_index, bb_index := bb_index,
    pot := sb_contribution + bb_contribution }

/-- check_for_win of evaluation.py: true when exactly one player is
still in hand. -/
def check_for_win (players : List Player) : Bool :=
  (players.filter fun p => p.in_hand).length == 1

/-- Seats paired with their indices, as Python iteration over the
players list with object identity replaced by position. -/
def enumFrom : Nat → List Player → List (Nat × Player)
  | _, [] => []
  | i, p :: ps => (i, p) :: enumFrom (i + 1) ps

/-- The accumulation loop of evaluate_showdown: skip players that are
not in hand, start a fresh winner list on a strictly better (lower)
score, append on an exact tie. -/
def showdownGo (score : Player → Int) :
    List (Nat × Player) → Option Int → List Nat → Option Int × List Nat
  | [], best, ws => (best, ws)
  | (i, p) :: rest, best, ws =>
    if p.in_hand = false then showdownGo score rest best ws
    else
      match best with
      | none => showdownGo score rest (some (score p)) [i]
      | some b =>
        if score p < b then showdownGo score rest (some (score p)) [i]
        else if score p = b then showdownGo score rest (some b) (ws ++ [i])
        else showdownGo score rest (some b) ws

/-- evaluate_showdown, returning winner seats; the hand-strength
computation against the board is the external oracle `score`. -/
def evaluate_showdown_idx (score : Player → Int) (players : List Player) :
    List Nat :=
  (showdownGo score (enumFrom 0 players) none []).2

/-- evaluate_showdown as in the source: the list of winning players. -/
def evaluate_showdown (score : Player → Int) (players : List Player) :
    List Player :=
  (evaluate_showdown_idx score players).map fun i => players.getD i default

/-- The pot allocation block of main.py: a single winner gets the whole
pot, a chopped pot gives each winner `total_pot // len(winners)`
(Python floor division). -/
def award_pot (players : List Player) (winners : List Nat)
    (total_pot : Int) : List Player :=
  if winners.length = 1 then
    updAt (winners.getD 0 0)
      (fun w => { w with stack := w.stack + total_pot }) players
  else
    winners.foldl (fun ps i =>
      updAt i (fun w =>
        { w with stack := w.stack + Int.fdiv total_pot (winners.length : Int) })
        ps) players

/-- in_hand_reset of evaluation.py: two independent conditionals. -/
def in_hand_reset (p : Player) : Player :=
  let p1 := if p.stack > 0 then { p with in_hand := true } else p
  if p1.stack = 0 then { p1 with in_hand := false } else p1

/-- One iteration of the hand loop in main.py: blinds, pre-flop
betting, three post-flop streets, showdown and pot award, cleanup.
After each street, `check_for_win` triggers the `continue` statement,
which returns to the top of the loop at once: the pot is dropped and
the cleanup block does not run on that path.  Returns the players list
and dealer position carried into the next hand. -/
def playHand (score : Player → Int) (σ : Strategy) (fuel : Nat)
    (players0 : List Player) (dealer_position : Nat)
    (sb_amount bb_amount : Int) : Except BetErr (List Player × Nat) := do
  let br := assign_blinds players0 dealer_position sb_amount bb_amount
  let (st1, k1) ← betting_round_preflop σ fuel br.players br.bb_index
      br.pot bb_amount 0
  if check_for_win st1.players then
    return (st1.players, dealer_position)
  let (st2, k2) ← betting_round_postflop σ fuel st1.players dealer_position
      st1.total_pot k1
  if check_for_win st2.players then
    return (st2.players, dealer_position)
  let (st3, k3) ← betting_round_postflop σ fuel st2.players dealer_position
      st2.total_pot k2
  if check_for_win st3.players then
    return (st3.players, dealer_position)
  let (st4, _) ← betting_round_postflop σ fuel st3.players dealer_position
      st3.total_pot k3
  if check_for_win st4.players then
    return (st4.players, dealer_position)
  let winners := evaluate_showdown_idx score st4.players
  let awarded := award_pot st4.players winners st4.total_pot
  let cleaned := (awarded.map in_hand_reset).filter fun p => p.in_hand
  return (cleaned, (dealer_position + 1) % cleaned.length)

/-- Total chips sitting in the stacks of a list of players. -/
def sumStacks (players : List Player) : Int :=
  (players.map fun p => p.stack).sum

/-- The action strings Player.option recognizes for a given amount to
call: Check/Bet/Fold/All-In when nothing is owed, Call/Raise/Fold/All-In
otherwise. -/
def recognizedFor (to_call : Int) (a : Action) : Bool :=
  if to_call = 0 then
    match a with
    | .Check => true
    | .Bet _ => true
    | .Fold => true
    | .AllIn => true
    | .Call => false
    | .Raise _ => false
    | .Other _ => false
  else
    match a with
    | .Call => true
    | .Raise _ => true
    | .Fold => true
    | .AllIn => true
    | .Check => false
    | .Bet _ => false
    | .Other _ => false

/-- A well-formed console input for a solicited player: a recognized
action whose Bet/Raise amount is a positive integer within the stack. -/
def validFor (p : Player) (to_call : Int) (a : Action) : Prop :=
  if to_call = 0 then
    a = .Check ∨ a = .Fold ∨ a = .AllIn ∨
      ∃ m, a = .Bet m ∧ 0 < m ∧ m ≤ p.stack
  else
    a = .Call ∨ a = .Fold ∨ a = .AllIn ∨
      ∃ m, a = .Raise m ∧ 0 < m ∧ m ≤ p.stack

/-- A strategy whose every solicited action is well formed. -/
def WFStrategy (σ : Strategy) : Prop :=
  ∀ k p t, p.in_hand = true → 0 < p.stack → validFor p t (σ k p t)

/-! ## Helper lemmas -/

/-- Unfolding of one loop layer. -/
lemma betLoop_succ (σ : Strategy) (fuel : Nat) (st : RoundState) (k : Nat) :
    betLoop σ (fuel + 1) st k =
      match stepOnce σ st k with
      | .error e => .error e
      | .ok (st2, k2) =>
        if roundDone st2 then .ok (st2, k2) else betLoop σ fuel st2 k2 := rfl

/-- Whenever a betting round loop returns, the exit test held on the
returned state. -/
lemma betLoop_ok_done (σ : Strategy) :
    ∀ (fuel : Nat) (st : RoundState) (k : Nat) (st2 : RoundState) (k2 : Nat),
      betLoop σ fuel st k = .ok (st2, k2) → roundDone st2 = true := by
  intro fuel
  induction fuel with
  | zero => intro st k st2 k2 h; simp [betLoop] at h
  | succ n ih =>
    intro st k st2 k2 h
    rw [betLoop_succ] at h
    cases hs : stepOnce σ st k with
    | error e => rw [hs] at h; simp at h
    | ok r =>
      rw [hs] at h
      by_cases hd : roundDone r.1
      · simp only [hd, if_true] at h
        obtain ⟨h1, _⟩ := Prod.mk.injEq .. ▸ Except.ok.inj h
        rw [← h1]
        exact hd
      · simp only [hd, if_false] at h
        exact ih r.1 r.2 st2 k2 h

/-- The exit predicate `caughtUp`, in propositional form. -/
lemma caughtUp_iff (st : RoundState) :
    caughtUp st = true ↔
      ∀ p ∈ st.players, p.in_hand = true →
        (p.amount_in_pot = st.current_bet ∨ p.stack = 0) := by
  have key : ∀ (p : Player) (cb : Int),
      (p.amount_in_pot == cb || !p.in_hand || p.stack == 0) = true ↔
        (p.in_hand = true → (p.amount_in_pot = cb ∨ p.stack = 0)) := by
    intro p cb
    cases hin : p.in_hand <;> simp [hin]
  unfold caughtUp
  rw [List.all_eq_true]
  constructor
  · intro h p hp hin
    exact (key p _).1 (h p (List.mem_filter.2 ⟨hp, hin⟩)) hin
  · intro h p hm
    obtain ⟨hp, hin⟩ := List.mem_filter.1 hm
    exact (key p _).2 fun hin2 => h p hp hin2

/-! ## C9: Player.bet raises ValueError exactly when the amount exceeds
the stack -/

/-- C9 (confirmed).  `Player.bet` fails with ValueError if and only if
the amount exceeds the stack; in the failure case no state change has
happened (the embedding returns no updated player: the Python raise
precedes the mutation), and otherwise exactly the amount is deducted
and returned. -/
theorem claim_C9 (p : Player) (amount : Int) :
    (amount > p.stack → p.bet amount = .error .valueError) ∧
    (amount ≤ p.stack →
      p.bet amount = .ok ({ p with stack := p.stack - amount }, amount)) ∧
    (∀ e, p.bet amount = .error e → amount > p.stack) := by
  unfold Player.bet
  refine ⟨fun h => ?_, fun h => ?_, fun e he => ?_⟩
  · rw [if_pos h]
  · rw [if_neg (by omega)]
  · by_cases hc : amount > p.stack
    · exact hc
    · rw [if_neg hc] at he; simp at he

/-- Witness for C9 at a concrete player and amount. -/
theorem claim_C9_witness :
    ((60 : Int) > (mkPlayer ("W") 50).stack →
      (mkPlayer ("W") 50).bet 60 = .error .valueError) ∧
    ((60 : Int) ≤ (mkPlayer ("W") 50).stack →
      (mkPlayer ("W") 50).bet 60 =
        .ok ({ mkPlayer ("W") 50 with stack := (mkPlayer ("W") 50).stack - 60 },
          60)) ∧
    (∀ e, (mkPlayer ("W") 50).bet 60 = .error e →
      (60 : Int) > (mkPlayer ("W") 50).stack) :=
  claim_C9 (mkPlayer ("W") 50) 60

/-! ## C6: stack non-negativity and clamping -/

/-- C6 counterexample: a bet larger than the stack is rejected with
ValueError, not clamped to an all-in, so the claim as stated (bets
exceeding the stack are clamped rather than rejected) is false. -/
theorem counterexample_C6 :
    (mkPlayer ("C") 5).bet 10 = .error .valueError := by decide

/-- C6 (amended).  For non-negative stacks and amounts the stack stays
non-negative: a call of at least the whole stack is clamped to an
all-in committing exactly the remaining stack, a smaller call deducts
the amount, and `all_in` empties the stack; a bet larger than the
stack, however, is rejected with ValueError (no clamping), while a bet
within the stack deducts it exactly. -/
theorem claim_C6 (p : Player) (amount : Int)
    (hs : 0 ≤ p.stack) (ha : 0 ≤ amount) :
    (0 ≤ (p.call amount).stack ∧
      (amount ≥ p.stack → (p.call amount).stack = 0) ∧
      (amount < p.stack → (p.call amount).stack = p.stack - amount)) ∧
    (p.all_in).stack = 0 ∧
    (amount > p.stack → p.bet amount = .error .valueError) ∧
    (amount ≤ p.stack → ∃ p2, p.bet amount = .ok (p2, amount) ∧
      p2.stack = p.stack - amount ∧ 0 ≤ p2.stack) := by
  unfold Player.call Player.all_in Player.bet
  refine ⟨⟨?_, fun h => ?_, fun h => ?_⟩, by simp, fun h => ?_, fun h => ?_⟩
  · by_cases hc : amount ≥ p.stack
    · rw [if_pos hc]; simp
    · rw [if_neg hc]; simp; omega
  · rw [if_pos h]; simp
  · rw [if_neg (by omega)]
  · rw [if_pos h]
  · rw [if_neg (by omega)]
    exact ⟨_, rfl, rfl, by simp; omega⟩

/-- Witness for C6 at a concrete player and amount. -/
theorem claim_C6_witness :
    (0 ≤ ((mkPlayer ("V") 30).call 12).stack ∧
      ((12 : Int) ≥ (mkPlayer ("V") 30).stack →
        ((mkPlayer ("V") 30).call 12).stack = 0) ∧
      ((12 : Int) < (mkPlayer ("V") 30).stack →
        ((mkPlayer ("V") 30).call 12).stack = (mkPlayer ("V") 30).stack - 12)) ∧
    ((mkPlayer ("V") 30).all_in).stack = 0 ∧
    ((12 : Int) > (mkPlayer ("V") 30).stack →
      (mkPlayer ("V") 30).bet 12 = .error .valueError) ∧
    ((12 : Int) ≤ (mkPlayer ("V") 30).stack →
      ∃ p2, (mkPlayer ("V") 30).bet 12 = .ok (p2, 12) ∧
        p2.stack = (mkPlayer ("V") 30).stack - 12 ∧ 0 ≤ p2.stack) :=
  claim_C6 (mkPlayer ("V") 30) 12 (by decide) (by decide)

/-! ## C5: unrecognized action strings -/

/-- Helper: on an unrecognized action string, Player.option leaves the
player untouched and returns the Python value None. -/
lemma option_unrecognized (p : Player) (t : Int) (a : Action)
    (hin : p.in_hand = true) (hur : recognizedFor t a = false) :
    Player.option p t a = .ok (p, none) := by
  cases a <;> by_cases h : t = 0 <;>
    simp_all [Player.option, recognizedFor]

/-- Strategy and state used in the C5 counterexample: the first seat to
act receives an unrecognized action string. -/
def c5sigma : Strategy := fun _ _ _ => .Other ("Hola")

def c5state : RoundState :=
  { players := [mkPlayer ("P0") 1000, mkPlayer ("P1") 1000],
    current_bet := 0, action_index := 0, last_raiser_index := 0,
    total_pot := 0 }

/-- C5 counterexample: an unrecognized action does not make
Player.option return a zero contribution pair; it returns None, and the
betting round then aborts with a TypeError when unpacking it instead of
continuing with the next seat. -/
theorem counterexample_C5 :
    Player.option (mkPlayer ("P0") 1000) 0 (.Other ("Hola"))
      = .ok (mkPlayer ("P0") 1000, none) ∧
    Player.option (mkPlayer ("P0") 1000) 0 (.Other ("Hola"))
      ≠ .ok (mkPlayer ("P0") 1000, some (0, false)) ∧
    betLoop c5sigma 5 c5state 0 = .error .typeError := by decide

/-- C5 (amended).  When the acting seat is dealt an action string
outside the recognized set for its situation, Player.option returns the
player unchanged together with None (no contribution pair), and the
betting round raises TypeError at the tuple unpacking, aborting instead
of moving to the next seat. -/
theorem claim_C5 (σ : Strategy) (st : RoundState) (k fuel : Nat)
    (p : Player) (t : Int)
    (hp : st.players.getD st.action_index default = p)
    (ht : t = st.current_bet - p.amount_in_pot)
    (hin : p.in_hand = true) (hpos : 0 < p.stack)
    (hur : recognizedFor t (σ k p t) = false) :
    Player.option p t (σ k p t) = .ok (p, none) ∧
    betLoop σ (fuel + 1) st k = .error .typeError := by
  have hopt := option_unrecognized p t (σ k p t) hin hur
  refine ⟨hopt, ?_⟩
  have hstep : stepOnce σ st k = .error .typeError := by
    simp only [stepOnce, hp, hin, hpos, if_pos, true_and, ← ht, hopt]
  rw [betLoop_succ, hstep]

lemma updAt_length : ∀ (i : Nat) (f : Player → Player) (l : List Player),
    (updAt i f l).length = l.length := by
  intro i f l
  induction l generalizing i with
  | nil => cases i <;> rfl
  | cons p ps ih => cases i with
    | zero => rfl
    | succ j => simp [updAt, ih]

lemma getD_updAt (i j : Nat) (f : Player → Player) (l : List Player) :
    (updAt i f l).getD j default =
      if j = i ∧ j < l.length then f (l.getD j default)
      else l.getD j default := by
  induction l generalizing i j with
  | nil => cases i <;> simp [updAt]
  | cons p ps ih =>
    cases i with
    | zero =>
      cases j with
      | zero => simp [updAt]
      | succ j2 => simp [updAt]
    | succ i2 =>
      cases j with
      | zero => simp [updAt]
      | succ j2 =>
        simp only [updAt, List.getD_cons_succ, ih, List.length_cons]
        by_cases h : j2 = i2 ∧ j2 < ps.length
        · rw [if_pos h, if_pos (by omega)]
        · rw [if_neg h, if_neg (by omega)]

lemma getD_map_player (f : Player → Player) (l : List Player) (j : Nat) :
    (l.map f).getD j default =
      if j < l.length then f (l.getD j default) else default := by
  induction l generalizing j with
  | nil => simp
  | cons p ps ih =>
    cases j with
    | zero => simp
    | succ j2 =>
      simp only [List.map_cons, List.getD_cons_succ, ih, List.length_cons]
      by_cases h : j2 < ps.length
      · rw [if_pos h, if_pos (by omega)]
      · rw [if_neg h, if_neg (by omega)]

/-! ## C1 and C4: the fold-win path of the hand loop -/

/-- Console inputs of the C1/C4 scenario: the small blind (seat name
Player 2) folds, everyone else checks. -/
def c1sigma : Strategy := fun _ p _ =>
  if p.name = "Player 2" then .Fold else .Check

/-- The players list main.py carries into the next hand after the
scenario of C1/C4 (2 players, stacks 1000/1000, blinds 10/20, dealer 0,
small blind folds pre-flop, big blind checks). -/
def c1players : List Player :=
  [{ name := "Player 1", stack := 980, in_hand := true, amount_in_pot := 20,
     is_dealer := true, is_smallblind := false, is_bigblind := true,
     current_bet := 20 },
   { name := "Player 2", stack := 990, in_hand := false, amount_in_pot := 10,
     is_dealer := false, is_smallblind := true, is_bigblind := false,
     current_bet := 10 }]

/-- C1 (code bug, evaluated at the failing input).  In the 2-player
scenario the hand ends by the small blind folding, but the `continue`
in main.py skips the pot award: the big blind keeps stack 980 instead
of the claimed 1030, and the 30-chip pot vanishes (total chips drop
from 2000 to 1970). -/
theorem claim_C1 :
    playHand (fun _ => 0) c1sigma 10
        [mkPlayer ("Player 1") 1000, mkPlayer ("Player 2") 1000] 0 10 20
      = .ok (c1players, 0) ∧
    (c1players.getD 0 default).stack = 980 ∧
    (c1players.getD 0 default).stack ≠ 1030 ∧
    sumStacks c1players = 1970 := by decide

/-- C4 (code bug, evaluated at the failing input).  On the same
fold-ended hand the cleanup block never runs: the folded small blind
keeps `in_hand = false` although its stack 990 is positive, and the
dealer position returned for the next hand is still 0, not
`(0 + 1) % 2 = 1`. -/
theorem claim_C4 :
    playHand (fun _ => 0) c1sigma 10
        [mkPlayer ("Player 1") 1000, mkPlayer ("Player 2") 1000] 0 10 20
      = .ok (c1players, 0) ∧
    (c1players.getD 1 default).in_hand = false ∧
    0 < (c1players.getD 1 default).stack ∧
    (0 : Nat) ≠ (0 + 1) % c1players.length := by decide

/-! ## C2: pot conservation across a betting round -/

/-- Console inputs used in the C2 and C3 runs: call whenever something
is owed, otherwise check. -/
def sigmaCallCheck : Strategy := fun _ _ t => if t = 0 then .Check else .Call

/-- Blind assignment of the C2 scenario: stacks 1000 and 15, dealer 0,
so the 15-chip player posts the small blind and then faces a call of 10
with only 5 behind. -/
def c2entry : BlindResult :=
  assign_blinds [mkPlayer ("A") 1000, mkPlayer ("B") 15] 0 10 20

/-- The round state in which the C2 pre-flop round ends. -/
def c2final : RoundState :=
  { players :=
      [{ name := "A", stack := 980, in_hand := true, amount_in_pot := 20,
         is_dealer := true, is_smallblind := false, is_bigblind := true,
         current_bet := 20 },
       { name := "B", stack := 0, in_hand := true, amount_in_pot := 20,
         is_dealer := false, is_smallblind := true, is_bigblind := false,
         current_bet := 10 }],
    current_bet := 20, action_index := 1, last_raiser_index := 1,
    total_pot := 40 }

/-- C2 (code bug, evaluated at the failing input).  Entering the
pre-flop round, stacks plus pot hold 1015 chips; the short-stacked
small blind calls 10 with only 5 behind, Player.option reports a
contribution of 10 while Player.call deducts only 5, and the round ends
with 1020 chips: the betting round created 5 chips, refuting the
conservation claim on the call-beyond-stack case it covers. -/
theorem claim_C2 :
    sumStacks c2entry.players + c2entry.pot = 1015 ∧
    betting_round_preflop sigmaCallCheck 10 c2entry.players c2entry.bb_index
        c2entry.pot 20 0 = .ok (c2final, 2) ∧
    sumStacks c2final.players + c2final.total_pot = 1020 := by decide

/-! ## C3: state of a betting round at the moment it returns -/

/-- C3 (confirmed).  Whenever a betting round loop returns, action has
come back to the last raiser, every in-hand player with chips behind
has matched `current_bet`, and every in-hand player has either matched
it or is all-in (`stack = 0`) — the exit condition of the source. -/
theorem claim_C3 (σ : Strategy) (fuel : Nat) (st : RoundState) (k : Nat)
    (st2 : RoundState) (k2 : Nat) (h : betLoop σ fuel st k = .ok (st2, k2)) :
    st2.action_index = st2.last_raiser_index ∧
    (∀ p ∈ st2.players, p.in_hand = true → 0 < p.stack →
      p.amount_in_pot = st2.current_bet) ∧
    (∀ p ∈ st2.players, p.in_hand = true →
      p.amount_in_pot = st2.current_bet ∨ p.stack = 0) := by
  have hd := betLoop_ok_done σ fuel st k st2 k2 h
  unfold roundDone at hd
  rw [Bool.and_eq_true, beq_iff_eq] at hd
  obtain ⟨h1, h2⟩ := hd
  have h3 := (caughtUp_iff st2).1 h2
  exact ⟨h1, fun p hp hin hpos => (h3 p hp hin).resolve_right (by omega), h3⟩

/-- The pre-flop entry state of the C3 witness run (2 players of 1000,
blinds 10/20 already posted, dealer 0). -/
def c3entry : RoundState :=
  { players :=
      [{ name := "P1", stack := 980, in_hand := true, amount_in_pot := 20,
         is_dealer := true, is_smallblind := false, is_bigblind := true,
         current_bet := 20 },
       { name := "P2", stack := 990, in_hand := true, amount_in_pot := 10,
         is_dealer := false, is_smallblind := true, is_bigblind := false,
         current_bet := 10 }],
    current_bet := 20, action_index := 1, last_raiser_index := 1,
    total_pot := 30 }

/-- The state in which the C3 witness run ends. -/
def c3final : RoundState :=
  { players :=
      [{ name := "P1", stack := 980, in_hand := true, amount_in_pot := 20,
         is_dealer := true, is_smallblind := false, is_bigblind := true,
         current_bet := 20 },
       { name := "P2", stack := 980, in_hand := true, amount_in_pot := 20,
         is_dealer := false, is_smallblind := true, is_bigblind := false,
         current_bet := 10 }],
    current_bet := 20, action_index := 1, last_raiser_index := 1,
    total_pot := 40 }

/-- Witness for C3: a complete concrete pre-flop round (small blind
calls, big blind checks) on which the round postcondition is obtained
from the theorem. -/
theorem claim_C3_witness :
    betLoop sigmaCallCheck 10 c3entry 0 = .ok (c3final, 2) ∧
    c3final.action_index = c3final.last_raiser_index ∧
    (c3final.players.getD 1 default).amount_in_pot = c3final.current_bet := by
  have h : betLoop sigmaCallCheck 10 c3entry 0 = .ok (c3final, 2) := by decide
  exact ⟨h, (claim_C3 sigmaCallCheck 10 c3entry 0 c3final 2 h).1,
    (claim_C3 sigmaCallCheck 10 c3entry 0 c3final 2 h).2.1
      (c3final.players.getD 1 default) (by decide) (by decide) (by decide)⟩

/-- Witness for C5 at a concrete strategy and state. -/
theorem claim_C5_witness :
    Player.option (mkPlayer ("P0") 1000) 0
        (c5sigma 0 (mkPlayer ("P0") 1000) 0) =
      .ok (mkPlayer ("P0") 1000, none) ∧
    betLoop c5sigma 8 c5state 0 = .error .typeError :=
  claim_C5 c5sigma c5state 0 7 (mkPlayer ("P0") 1000) 0
    (by decide) (by decide) (by decide) (by decide) (by decide)

/-! ## C7: assign_blinds -/

/-- C7 counterexample: with a single seated player the small-blind and
big-blind seats coincide, the player has 30 chips deducted in total
(stack 1000 drops to 970) while `amount_in_pot` is overwritten to 20,
so the final `amount_in_pot` does not equal the amount deducted from
the stack of that player, refuting the claim on one-player seatings. -/
theorem counterexample_C7 :
    ((assign_blinds [mkPlayer ("Solo") 1000] 0 10 20).players.getD 0
        default).stack = 970 ∧
    ((assign_blinds [mkPlayer ("Solo") 1000] 0 10 20).players.getD 0
        default).amount_in_pot = 20 ∧
    ¬ ((mkPlayer ("Solo") 1000).stack -
        ((assign_blinds [mkPlayer ("Solo") 1000] 0 10 20).players.getD 0
          default).stack =
       ((assign_blinds [mkPlayer ("Solo") 1000] 0 10 20).players.getD 0
          default).amount_in_pot) := by decide

/-- C7 (amended to seatings of at least two players, where the two
blind seats are distinct).  assign_blinds computes the blind seats from
the dealer, rewrites the three role flags of every seat to exactly the
computed roles, deducts the clamped contribution `min(blind, stack)`
from each blind seat while recording it in the `amount_in_pot` of that seat
(and `current_bet`), leaves all other fields and seats unchanged, and
returns the two indices with the pot equal to the sum of the two
contributions; no input is rejected. -/
theorem claim_C7 (players : List Player) (dealer : Nat)
    (sb_amount bb_amount : Int) (sbi bbi : Nat) (sbc bbc : Int)
    (hn : 2 ≤ players.length) (hdl : dealer < players.length)
    (hsbi : sbi = (dealer + 1) % players.length)
    (hbbi : bbi = (dealer + 2) % players.length)
    (hsbc : sbc = min sb_amount (players.getD sbi default).stack)
    (hbbc : bbc = min bb_amount (players.getD bbi default).stack) :
    (assign_blinds players dealer sb_amount bb_amount).sb_index = sbi ∧
    (assign_blinds players dealer sb_amount bb_amount).bb_index = bbi ∧
    (assign_blinds players dealer sb_amount bb_amount).pot = sbc + bbc ∧
    (assign_blinds players dealer sb_amount bb_amount).players.length =
      players.length ∧
    (∀ i, i < players.length →
      (assign_blinds players dealer sb_amount bb_amount).players.getD i
          default =
        { players.getD i default with
            is_dealer := i == dealer,
            is_smallblind := i == sbi,
            is_bigblind := i == bbi,
            stack := (players.getD i default).stack -
              (if i = sbi then sbc else 0) - (if i = bbi then bbc else 0),
            amount_in_pot :=
              if i = sbi then sbc
              else if i = bbi then bbc
              else (players.getD i default).amount_in_pot,
            current_bet :=
              if i = sbi then sbc
              else if i = bbi then bbc
              else (players.getD i default).current_bet }) := by
  have hpos : 0 < players.length := by omega
  have hb1 : (dealer + 1) % players.length < players.length :=
    Nat.mod_lt _ hpos
  have hb2 : (dealer + 2) % players.length < players.length :=
    Nat.mod_lt _ hpos
  have hne1 : (dealer + 1) % players.length ≠ (dealer + 2) % players.length := by
    intro h
    have hdvd : players.length ∣ (dealer + 2) - (dealer + 1) :=
      (Nat.modEq_iff_dvd' (by omega)).1 h
    have h1 : players.length ∣ 1 := by
      have h2 : dealer + 2 - (dealer + 1) = 1 := by omega
      rwa [h2] at hdvd
    have := Nat.le_of_dvd (by omega) h1
    omega
  have hne2 : dealer ≠ (dealer + 1) % players.length := by
    intro h
    have hmod : dealer % players.length = (dealer + 1) % players.length := by
      rw [Nat.mod_eq_of_lt hdl]; exact h
    have hdvd : players.length ∣ (dealer + 1) - dealer :=
      (Nat.modEq_iff_dvd' (by omega)).1 hmod
    have h1 : players.length ∣ 1 := by
      have h2 : dealer + 1 - dealer = 1 := by omega
      rwa [h2] at hdvd
    have := Nat.le_of_dvd (by omega) h1
    omega
  subst hsbi hbbi hsbc hbbc
  have hpre : ∀ j, j < players.length →
      (updAt ((dealer + 2) % players.length) setBB
        (updAt ((dealer + 1) % players.length) setSB
          (updAt dealer setDealer (players.map clearFlags)))).getD j default
        = { players.getD j default with
              is_dealer := j == dealer,
              is_smallblind := j == (dealer + 1) % players.length,
              is_bigblind := j == (dealer + 2) % players.length } := by
    intro j hj
    rw [getD_updAt]
    simp only [updAt_length, List.length_map]
    rw [getD_updAt]
    simp only [updAt_length, List.length_map]
    rw [getD_updAt]
    simp only [List.length_map]
    rw [getD_map_player, if_pos hj]
    by_cases e1 : j = dealer <;>
      by_cases e2 : j = (dealer + 1) % players.length <;>
        by_cases e3 : j = (dealer + 2) % players.length <;>
          simp_all [clearFlags, setDealer, setSB, setBB]
  refine ⟨?_, ?_, ?_, ?_, ?_⟩
  · simp [assign_blinds]
  · simp [assign_blinds]
  · simp only [assign_blinds, List.length_map]
    rw [hpre ((dealer + 1) % players.length) hb1,
      hpre ((dealer + 2) % players.length) hb2]
  · simp [assign_blinds, updAt_length]
  · intro i hi
    simp only [assign_blinds, List.length_map]
    rw [hpre ((dealer + 1) % players.length) hb1,
      hpre ((dealer + 2) % players.length) hb2]
    rw [getD_updAt]
    simp only [updAt_length, List.length_map]
    rw [getD_updAt]
    simp only [updAt_length, List.length_map]
    rw [hpre i hi]
    by_cases e2 : i = (dealer + 1) % players.length <;>
      by_cases e3 : i = (dealer + 2) % players.length <;>
        simp_all [blindDeduct]

/-- Seating used in the C7 witness: three players, the third one too
short-stacked to post the full small blind. -/
def w7players : List Player :=
  [mkPlayer ("P0") 1000, mkPlayer ("P1") 200, mkPlayer ("P2") 6]

/-- Witness for C7: three players, dealer 1, blinds 10/20; the small
blind seat is 2 (clamped to its 6-chip stack), the big blind seat
is 0. -/
theorem claim_C7_witness :
    (assign_blinds w7players 1 10 20).sb_index = 2 ∧
    (assign_blinds w7players 1 10 20).bb_index = 0 ∧
    (assign_blinds w7players 1 10 20).pot = 6 + 20 ∧
    (assign_blinds w7players 1 10 20).players.length = w7players.length ∧
    (∀ i, i < w7players.length →
      (assign_blinds w7players 1 10 20).players.getD i default =
        { w7players.getD i default with
            is_dealer := i == 1,
            is_smallblind := i == 2,
            is_bigblind := i == 0,
            stack := (w7players.getD i default).stack -
              (if i = 2 then 6 else 0) - (if i = 0 then 20 else 0),
            amount_in_pot :=
              if i = 2 then 6
              else if i = 0 then 20
              else (w7players.getD i default).amount_in_pot,
            current_bet :=
              if i = 2 then 6
              else if i = 0 then 20
              else (w7players.getD i default).current_bet }) :=
  claim_C7 w7players 1 10 20 2 0 6 20 (by decide) (by decide)
    (by decide) (by decide) (by decide) (by decide)

/-! ## C8: evaluate_showdown and the pot split -/

lemma showdownGo_cons (score : Player → Int) (i : Nat) (p : Player)
    (rest : List (Nat × Player)) (best : Option Int) (ws : List Nat) :
    showdownGo score ((i, p) :: rest) best ws =
      if p.in_hand = false then showdownGo score rest best ws
      else
        match best with
        | none => showdownGo score rest (some (score p)) [i]
        | some b =>
          if score p < b then showdownGo score rest (some (score p)) [i]
          else if score p = b then showdownGo score rest (some b) (ws ++ [i])
          else showdownGo score rest (some b) ws := rfl

lemma showdownGo_cons_some (score : Player → Int) (i : Nat) (p : Player)
    (rest : List (Nat × Player)) (b : Int) (ws : List Nat) :
    showdownGo score ((i, p) :: rest) (some b) ws =
      if p.in_hand = false then showdownGo score rest (some b) ws
      else if score p < b then showdownGo score rest (some (score p)) [i]
      else if score p = b then showdownGo score rest (some b) (ws ++ [i])
      else showdownGo score rest (some b) ws := rfl

lemma showdownGo_cons_none (score : Player → Int) (i : Nat) (p : Player)
    (rest : List (Nat × Player)) (ws : List Nat) :
    showdownGo score ((i, p) :: rest) none ws =
      if p.in_hand = false then showdownGo score rest none ws
      else showdownGo score rest (some (score p)) [i] := rfl

lemma enumFrom_mem_of_lt :
    ∀ (l : List Player) (k j : Nat), j < l.length →
      (k + j, l.getD j default) ∈ enumFrom k l := by
  intro l
  induction l with
  | nil => intro k j h; simp at h
  | cons p ps ih =>
    intro k j h
    cases j with
    | zero => simp [enumFrom]
    | succ j2 =>
      have h2 := ih (k + 1) j2 (by simp at h; omega)
      have e : k + (j2 + 1) = (k + 1) + j2 := by omega
      rw [List.getD_cons_succ, e]
      exact List.mem_cons_of_mem _ h2

lemma enumFrom_mem_inv :
    ∀ (l : List Player) (k i : Nat) (p : Player),
      (i, p) ∈ enumFrom k l →
      ∃ j, i = k + j ∧ j < l.length ∧ l.getD j default = p := by
  intro l
  induction l with
  | nil => intro k i p h; simp [enumFrom] at h
  | cons q ps ih =>
    intro k i p h
    rw [enumFrom, List.mem_cons] at h
    rcases h with h1 | h2
    · obtain ⟨hi, hp⟩ := Prod.mk.injEq .. ▸ h1
      exact ⟨0, by omega, by simp, by simp [hp.symm]⟩
    · obtain ⟨j, hj1, hj2, hj3⟩ := ih (k + 1) i p h2
      exact ⟨j + 1, by omega, by simp; omega,
        by rw [List.getD_cons_succ]; exact hj3⟩

/-- The loop invariant of evaluate_showdown over the processed prefix
S: the running best score is achieved, it is minimal among in-hand
prefix entries, and the winner list holds exactly the indices of
in-hand prefix entries achieving it. -/
def ShowdownInv (score : Player → Int) (S : List (Nat × Player)) (b : Int)
    (ws : List Nat) : Prop :=
  (∃ x ∈ S, x.2.in_hand = true ∧ score x.2 = b) ∧
  (∀ x ∈ S, x.2.in_hand = true → b ≤ score x.2) ∧
  (∀ i, i ∈ ws ↔ ∃ p, (i, p) ∈ S ∧ p.in_hand = true ∧ score p = b)

lemma showdownGo_some_spec (score : Player → Int) :
    ∀ (rest : List Player) (k : Nat) (b : Int) (ws : List Nat)
      (S : List (Nat × Player)),
      ShowdownInv score S b ws → (∀ i ∈ ws, i < k) → ws.Nodup →
      ∃ b2 ws2, showdownGo score (enumFrom k rest) (some b) ws = (some b2, ws2) ∧
        ShowdownInv score (S ++ enumFrom k rest) b2 ws2 ∧ ws2.Nodup ∧
        (∀ i ∈ ws2, i < k + rest.length) := by
  intro rest
  induction rest with
  | nil =>
    intro k b ws S hinv hbd hnd
    refine ⟨b, ws, rfl, by simpa [enumFrom] using hinv, hnd, ?_⟩
    intro i hi; have := hbd i hi; simp; omega
  | cons p ps ih =>
    intro k b ws S hinv hbd hnd
    obtain ⟨hex, hmin, hiff⟩ := hinv
    have hsplit : ∀ (x : Nat × Player), x ∈ S ++ [(k, p)] ↔
        x ∈ S ∨ x = (k, p) := by intro x; simp
    rw [enumFrom, showdownGo_cons_some]
    by_cases hin : p.in_hand = false
    · rw [if_pos hin]
      have hinv2 : ShowdownInv score (S ++ [(k, p)]) b ws := by
        refine ⟨?_, ?_, ?_⟩
        · obtain ⟨x, hx, h1, h2⟩ := hex
          exact ⟨x, by simp [hx], h1, h2⟩
        · intro x hx h1
          rcases (hsplit x).1 hx with h2 | h2
          · exact hmin x h2 h1
          · rw [h2] at h1; rw [hin] at h1; cases h1
        · intro i
          rw [hiff i]
          constructor
          · rintro ⟨q, hq1, hq2, hq3⟩; exact ⟨q, by simp [hq1], hq2, hq3⟩
          · rintro ⟨q, hq1, hq2, hq3⟩
            rcases (hsplit (i, q)).1 hq1 with h2 | h2
            · exact ⟨q, h2, hq2, hq3⟩
            · obtain ⟨e1, e2⟩ := Prod.mk.injEq .. ▸ h2
              rw [e2, hin] at hq2; cases hq2
      obtain ⟨b2, ws2, hrun, hi2, hn2, hb2⟩ :=
        ih (k + 1) b ws (S ++ [(k, p)]) hinv2
          (fun i hi => by have := hbd i hi; omega) hnd
      refine ⟨b2, ws2, hrun, ?_, hn2, ?_⟩
      · rwa [List.append_assoc, List.singleton_append] at hi2
      · intro i hi; have := hb2 i hi; simp at this ⊢; omega
    · have hin2 : p.in_hand = true := by
        cases h : p.in_hand
        · exact absurd h hin
        · rfl
      rw [if_neg hin]
      by_cases hlt : score p < b
      · rw [if_pos hlt]
        have hinv2 : ShowdownInv score (S ++ [(k, p)]) (score p) [k] := by
          refine ⟨⟨(k, p), by simp, hin2, rfl⟩, ?_, ?_⟩
          · intro x hx h1
            rcases (hsplit x).1 hx with h2 | h2
            · exact le_trans (le_of_lt hlt) (hmin x h2 h1)
            · rw [h2]
          · intro i
            constructor
            · intro hi
              rw [List.mem_singleton] at hi
              exact ⟨p, by simp [hi], hin2, rfl⟩
            · rintro ⟨q, hq1, hq2, hq3⟩
              rcases (hsplit (i, q)).1 hq1 with h2 | h2
              · exfalso
                have h5 : b ≤ score q := hmin (i, q) h2 hq2
                omega
              · obtain ⟨e1, e2⟩ := Prod.mk.injEq .. ▸ h2
                simp [e1]
        obtain ⟨b2, ws2, hrun, hi2, hn2, hb2⟩ :=
          ih (k + 1) (score p) [k] (S ++ [(k, p)]) hinv2
            (by intro i hi; rw [List.mem_singleton] at hi; omega)
            (List.nodup_singleton k)
        refine ⟨b2, ws2, hrun, ?_, hn2, ?_⟩
        · rwa [List.append_assoc, List.singleton_append] at hi2
        · intro i hi; have := hb2 i hi; simp at this ⊢; omega
      · rw [if_neg hlt]
        by_cases heq : score p = b
        · rw [if_pos heq]
          have hinv2 : ShowdownInv score (S ++ [(k, p)]) b (ws ++ [k]) := by
            refine ⟨?_, ?_, ?_⟩
            · obtain ⟨x, hx, h1, h2⟩ := hex
              exact ⟨x, by simp [hx], h1, h2⟩
            · intro x hx h1
              rcases (hsplit x).1 hx with h2 | h2
              · exact hmin x h2 h1
              · rw [h2]; show b ≤ score p; omega
            · intro i
              rw [List.mem_append, List.mem_singleton, hiff i]
              constructor
              · rintro (⟨q, hq1, hq2, hq3⟩ | hik)
                · exact ⟨q, by simp [hq1], hq2, hq3⟩
                · exact ⟨p, by simp [hik], hin2, heq⟩
              · rintro ⟨q, hq1, hq2, hq3⟩
                rcases (hsplit (i, q)).1 hq1 with h2 | h2
                · exact Or.inl ⟨q, h2, hq2, hq3⟩
                · obtain ⟨e1, e2⟩ := Prod.mk.injEq .. ▸ h2
                  exact Or.inr e1
          obtain ⟨b2, ws2, hrun, hi2, hn2, hb2⟩ :=
            ih (k + 1) b (ws ++ [k]) (S ++ [(k, p)]) hinv2
              (by
                intro i hi
                rw [List.mem_append, List.mem_singleton] at hi
                rcases hi with h2 | h2
                · have := hbd i h2; omega
                · omega)
              (by
                rw [List.nodup_append]
                exact ⟨hnd, List.nodup_singleton k,
                  by
                    intro i hi hj
                    rw [List.mem_singleton] at hj
                    have := hbd i hi
                    omega⟩)
          refine ⟨b2, ws2, hrun, ?_, hn2, ?_⟩
          · rwa [List.append_assoc, List.singleton_append] at hi2
          · intro i hi; have := hb2 i hi; simp at this ⊢; omega
        · rw [if_neg heq]
          have hinv2 : ShowdownInv score (S ++ [(k, p)]) b ws := by
            refine ⟨?_, ?_, ?_⟩
            · obtain ⟨x, hx, h1, h2⟩ := hex
              exact ⟨x, by simp [hx], h1, h2⟩
            · intro x hx h1
              rcases (hsplit x).1 hx with h2 | h2
              · exact hmin x h2 h1
              · rw [h2]; show b ≤ score p; omega
            · intro i
              rw [hiff i]
              constructor
              · rintro ⟨q, hq1, hq2, hq3⟩; exact ⟨q, by simp [hq1], hq2, hq3⟩
              · rintro ⟨q, hq1, hq2, hq3⟩
                rcases (hsplit (i, q)).1 hq1 with h2 | h2
                · exact ⟨q, h2, hq2, hq3⟩
                · obtain ⟨e1, e2⟩ := Prod.mk.injEq .. ▸ h2
                  rw [e2] at hq3; exact absurd hq3 heq
          obtain ⟨b2, ws2, hrun, hi2, hn2, hb2⟩ :=
            ih (k + 1) b ws (S ++ [(k, p)]) hinv2
              (fun i hi => by have := hbd i hi; omega) hnd
          refine ⟨b2, ws2, hrun, ?_, hn2, ?_⟩
          · rwa [List.append_assoc, List.singleton_append] at hi2
          · intro i hi; have := hb2 i hi; simp at this ⊢; omega

lemma showdownGo_none_spec (score : Player → Int) :
    ∀ (rest : List Player) (k : Nat) (S : List (Nat × Player)),
      (∀ x ∈ S, x.2.in_hand = false) →
      ((∀ x ∈ S ++ enumFrom k rest, x.2.in_hand = false) ∧
        showdownGo score (enumFrom k rest) none [] = (none, [])) ∨
      (∃ b2 ws2, showdownGo score (enumFrom k rest) none [] = (some b2, ws2) ∧
        ShowdownInv score (S ++ enumFrom k rest) b2 ws2 ∧ ws2.Nodup ∧
        (∀ i ∈ ws2, i < k + rest.length)) := by
  intro rest
  induction rest with
  | nil =>
    intro k S hS
    exact Or.inl ⟨by simpa [enumFrom] using hS, rfl⟩
  | cons p ps ih =>
    intro k S hS
    rw [enumFrom, showdownGo_cons_none]
    by_cases hin : p.in_hand = false
    · rw [if_pos hin]
      have hS2 : ∀ x ∈ S ++ [(k, p)], x.2.in_hand = false := by
        intro x hx
        rw [List.mem_append, List.mem_singleton] at hx
        rcases hx with h2 | h2
        · exact hS x h2
        · rw [h2]; exact hin
      rcases ih (k + 1) (S ++ [(k, p)]) hS2 with ⟨h1, h2⟩ | ⟨b2, ws2, h1, h2, h3, h4⟩
      · left
        refine ⟨?_, h2⟩
        rwa [List.append_assoc, List.singleton_append] at h1
      · right
        refine ⟨b2, ws2, h1, ?_, h3, ?_⟩
        · rwa [List.append_assoc, List.singleton_append] at h2
        · intro i hi; have := h4 i hi; simp at this ⊢; omega
    · have hin2 : p.in_hand = true := by
        cases h : p.in_hand
        · exact absurd h hin
        · rfl
      rw [if_neg hin]
      right
      have hinv2 : ShowdownInv score (S ++ [(k, p)]) (score p) [k] := by
        refine ⟨⟨(k, p), by simp, hin2, rfl⟩, ?_, ?_⟩
        · intro x hx h1
          rw [List.mem_append, List.mem_singleton] at hx
          rcases hx with h2 | h2
          · rw [hS x h2] at h1; cases h1
          · rw [h2]
        · intro i
          constructor
          · intro hi
            rw [List.mem_singleton] at hi
            exact ⟨p, by simp [hi], hin2, rfl⟩
          · rintro ⟨q, hq1, hq2, hq3⟩
            rw [List.mem_append, List.mem_singleton] at hq1
            rcases hq1 with h2 | h2
            · have := hS (i, q) h2; rw [this] at hq2; cases hq2
            · obtain ⟨e1, e2⟩ := Prod.mk.injEq .. ▸ h2
              simp [e1]
      obtain ⟨b2, ws2, hrun, hi2, hn2, hb2⟩ :=
        showdownGo_some_spec score ps (k + 1) (score p) [k] (S ++ [(k, p)])
          hinv2 (by intro i hi; rw [List.mem_singleton] at hi; omega)
          (List.nodup_singleton k)
      refine ⟨b2, ws2, hrun, ?_, hn2, ?_⟩
      · rwa [List.append_assoc, List.singleton_append] at hi2
      · intro i hi; have := hb2 i hi; simp at this ⊢; omega

lemma foldl_updAt_getD (f : Player → Player) :
    ∀ (ws : List Nat) (ps : List Player), ws.Nodup →
      ∀ i, (ws.foldl (fun acc w => updAt w f acc) ps).getD i default =
        if i ∈ ws ∧ i < ps.length then f (ps.getD i default)
        else ps.getD i default := by
  intro ws
  induction ws with
  | nil => intro ps hnd i; simp
  | cons w ws2 ih =>
    intro ps hnd i
    rw [List.foldl_cons]
    rw [List.nodup_cons] at hnd
    rw [ih (updAt w f ps) hnd.2 i, updAt_length, getD_updAt]
    by_cases h1 : i = w
    · subst h1
      rw [if_neg (fun hc => hnd.1 hc.1)]
      by_cases h2 : i < ps.length
      · rw [if_pos ⟨rfl, h2⟩, if_pos ⟨List.mem_cons_self i ws2, h2⟩]
      · rw [if_neg (fun hc => h2 hc.2), if_neg (fun hc => h2 hc.2)]
    · by_cases h2 : i ∈ ws2 ∧ i < ps.length
      · rw [if_pos h2, if_neg (fun hc => h1 hc.1),
          if_pos ⟨List.mem_cons_of_mem w h2.1, h2.2⟩]
      · rw [if_neg h2, if_neg (fun hc => h1 hc.1), if_neg (by
          intro hc
          rcases List.mem_cons.1 hc.1 with h3 | h3
          · exact h1 h3
          · exact h2 ⟨h3, hc.2⟩)]

lemma award_pot_getD (players : List Player) (ws : List Nat) (pot : Int)
    (hnd : ws.Nodup) (hbd : ∀ i ∈ ws, i < players.length) :
    ∀ i, i < players.length →
      (award_pot players ws pot).getD i default =
        if i ∈ ws then
          { players.getD i default with
              stack := (players.getD i default).stack +
                Int.fdiv pot (ws.length : Int) }
        else players.getD i default := by
  intro i hi
  unfold award_pot
  by_cases h1 : ws.length = 1
  · rw [if_pos h1]
    obtain ⟨w, hw⟩ := List.length_eq_one.1 h1
    subst hw
    rw [show ([w] : List Nat).getD 0 0 = w from rfl, getD_updAt]
    by_cases h2 : i = w
    · rw [if_pos ⟨h2, hi⟩, if_pos (by simp [h2])]
      simp [Int.fdiv_one]
    · rw [if_neg (fun hc => h2 hc.1), if_neg (by simpa using h2)]
  · rw [if_neg h1]
    rw [foldl_updAt_getD _ ws players hnd i]
    by_cases h2 : i ∈ ws
    · rw [if_pos ⟨h2, hi⟩, if_pos h2]
    · rw [if_neg (fun hc => h2 hc.1), if_neg h2]

/-- C8 (confirmed).  With at least one in-hand player, the winner set
of evaluate_showdown is exactly the non-empty set of in-hand players
whose oracle score is minimal among in-hand players, and awarding the
pot adds `total_pot // k` (Python floor division) to each of the k
winners and nothing to anyone else: the remainder of the division is
not redistributed. -/
theorem claim_C8 (score : Player → Int) (players : List Player)
    (total_pot : Int) (hex : ∃ p ∈ players, p.in_hand = true) :
    evaluate_showdown_idx score players ≠ [] ∧
    (∀ i, i ∈ evaluate_showdown_idx score players ↔
      (i < players.length ∧ (players.getD i default).in_hand = true ∧
        ∀ j, j < players.length → (players.getD j default).in_hand = true →
          score (players.getD i default) ≤ score (players.getD j default))) ∧
    (∀ i, i < players.length →
      (award_pot players (evaluate_showdown_idx score players)
          total_pot).getD i default =
        if i ∈ evaluate_showdown_idx score players then
          { players.getD i default with
              stack := (players.getD i default).stack +
                Int.fdiv total_pot
                  ((evaluate_showdown_idx score players).length : Int) }
        else players.getD i default) := by
  obtain ⟨p0, hp0, hp0in⟩ := hex
  obtain ⟨j0, hj0lt, hj0⟩ := List.mem_iff_getElem.1 hp0
  have hmem0 : (0 + j0, players.getD j0 default) ∈ enumFrom 0 players :=
    enumFrom_mem_of_lt players 0 j0 hj0lt
  have hget0 : players.getD j0 default = p0 := by
    rw [List.getD_eq_getElem _ _ hj0lt]; exact hj0
  rcases showdownGo_none_spec score players 0 [] (by simp) with
    ⟨hall, _⟩ | ⟨b2, ws2, hrun, ⟨hex2, hmin2, hiff2⟩, hnd2, hbd2⟩
  · exfalso
    have := hall (0 + j0, players.getD j0 default) (by simpa using hmem0)
    rw [hget0] at this
    rw [hp0in] at this
    cases this
  · have hws : evaluate_showdown_idx score players = ws2 := by
      unfold evaluate_showdown_idx
      rw [hrun]
    have hiff3 : ∀ i, i ∈ ws2 ↔
        (i < players.length ∧ (players.getD i default).in_hand = true ∧
          ∀ j, j < players.length → (players.getD j default).in_hand = true →
            score (players.getD i default) ≤ score (players.getD j default)) := by
      intro i
      rw [hiff2 i]
      constructor
      · rintro ⟨q, hq1, hq2, hq3⟩
        rw [List.nil_append] at hq1
        obtain ⟨j, hj1, hj2, hj3⟩ := enumFrom_mem_inv players 0 i q hq1
        have hij : i = j := by omega
        subst hij
        rw [hj3]
        refine ⟨hj2, hq2, ?_⟩
        intro j2 hj2lt hj2in
        have hmemj : (0 + j2, players.getD j2 default) ∈ enumFrom 0 players :=
          enumFrom_mem_of_lt players 0 j2 hj2lt
        have := hmin2 (0 + j2, players.getD j2 default) (by simpa using hmemj)
          (by simpa using hj2in)
        rw [hq3]
        simpa using this
      · rintro ⟨hlt, hin, hminp⟩
        refine ⟨players.getD i default, ?_, hin, ?_⟩
        · have := enumFrom_mem_of_lt players 0 i hlt
          simpa using this
        · obtain ⟨x, hx1, hx2, hx3⟩ := hex2
          rw [List.nil_append] at hx1
          obtain ⟨j, hj1, hj2, hj3⟩ := enumFrom_mem_inv players 0 x.1 x.2 hx1
          have hxj : x.1 = j := by omega
          have hle1 : score (players.getD i default) ≤ b2 := by
            rw [← hx3, ← hj3]
            exact hminp j hj2 (by rw [hj3]; exact hx2)
          have hle2 : b2 ≤ score (players.getD i default) := by
            have hmemi := enumFrom_mem_of_lt players 0 i hlt
            exact hmin2 (0 + i, players.getD i default) (by simpa using hmemi)
              (by simpa using hin)
          omega
    refine ⟨?_, ?_, ?_⟩
    · rw [hws]
      obtain ⟨x, hx1, hx2, hx3⟩ := hex2
      intro hcon
      have := (hiff2 x.1).2 ⟨x.2, by simpa using hx1, hx2, hx3⟩
      rw [hcon] at this
      cases this
    · intro i
      rw [hws]
      exact hiff3 i
    · intro i hi
      rw [hws]
      exact award_pot_getD players ws2 total_pot hnd2
        (fun w hw => by have := hbd2 w hw; omega) i hi

/-- Witness for C8: three players, the first folded, the other two tied
at the minimal score; each winner receives `25 // 2 = 12` and the odd
chip is dropped. -/
def w8players : List Player :=
  [{ name := "F", stack := 100, in_hand := false, amount_in_pot := 0,
     is_dealer := false, is_smallblind := false, is_bigblind := false,
     current_bet := 0 },
   mkPlayer ("X") 40, mkPlayer ("Y") 70]

/-- The scoring oracle of the C8 witness: folded seat would have scored
best, the two live seats tie. -/
def w8score : Player → Int := fun p => if p.name = "F" then 0 else 7

/-- Witness for C8 at a concrete seating, oracle and pot. -/
theorem claim_C8_witness :
    evaluate_showdown_idx w8score w8players ≠ [] ∧
    (∀ i, i ∈ evaluate_showdown_idx w8score w8players ↔
      (i < w8players.length ∧
        (w8players.getD i default).in_hand = true ∧
        ∀ j, j < w8players.length →
          (w8players.getD j default).in_hand = true →
            w8score (w8players.getD i default) ≤
              w8score (w8players.getD j default))) ∧
    (∀ i, i < w8players.length →
      (award_pot w8players (evaluate_showdown_idx w8score w8players)
          25).getD i default =
        if i ∈ evaluate_showdown_idx w8score w8players then
          { w8players.getD i default with
              stack := (w8players.getD i default).stack +
                Int.fdiv 25
                  ((evaluate_showdown_idx w8score w8players).length : Int) }
        else w8players.getD i default) :=
  claim_C8 w8score w8players 25 ⟨mkPlayer ("X") 40, by decide, by decide⟩

/-! ## C10: termination of the betting round loops

The loop has no structural termination argument, so we measure a state
by the chips still able to move: the non-negative part of each stack,
the overshoot of each `amount_in_pot` above `current_bet` (paid back by
a negative call exactly once per player), a flag for each such
overshoot, and a flag per in-hand player.  Every solicited action other
than Check strictly decreases the measure; Check and skipped seats
leave the players, bet and raiser anchor untouched, so a full lap
without a decrease reaches the exit test with everyone caught up. -/

/-- Weight of one player against the current bet. -/
def pweight (cb : Int) (p : Player) : Nat :=
  p.stack.toNat + (p.amount_in_pot - cb).toNat +
    (if cb < p.amount_in_pot then 1 else 0) +
    (if p.in_hand then 1 else 0)

/-- Termination measure of a betting round state. -/
def roundMeasure (st : RoundState) : Nat :=
  (st.players.map (pweight st.current_bet)).sum

/-- States reachable by the betting round entry points. -/
def RoundInv (st : RoundState) : Prop :=
  st.players ≠ [] ∧ (∀ p ∈ st.players, 0 ≤ p.stack) ∧
  st.action_index < st.players.length ∧
  st.last_raiser_index < st.players.length

/-- The loop, started at this state and input position, returns. -/
def TermFrom (σ : Strategy) (st : RoundState) (k : Nat) : Prop :=
  ∃ fuel r, betLoop σ fuel st k = .ok r

lemma pweight_mono (p : Player) {cb cb2 : Int} (h : cb ≤ cb2) :
    pweight cb2 p ≤ pweight cb p := by
  unfold pweight
  split_ifs <;> omega

lemma sum_pweight_mono {cb cb2 : Int} (h : cb ≤ cb2) :
    ∀ l : List Player, (l.map (pweight cb2)).sum ≤ (l.map (pweight cb)).sum := by
  intro l
  induction l with
  | nil => simp
  | cons p ps ih =>
    simp only [List.map_cons, List.sum_cons]
    have := pweight_mono p h
    omega

lemma sum_map_set (f : Player → Nat) :
    ∀ (l : List Player) (i : Nat) (x : Player), i < l.length →
      ((l.set i x).map f).sum + f (l.getD i default) = (l.map f).sum + f x := by
  intro l
  induction l with
  | nil => intro i x h; simp at h
  | cons p ps ih =>
    intro i x h
    cases i with
    | zero => simp [List.set]; omega
    | succ j =>
      simp only [List.set, List.map_cons, List.sum_cons, List.getD_cons_succ]
      have := ih j x (by simp at h; omega)
      omega

lemma set_getD_self : ∀ (l : List Player) (i : Nat), i < l.length →
    l.set i (l.getD i default) = l := by
  intro l
  induction l with
  | nil => intro i h; simp at h
  | cons p ps ih =>
    intro i h
    cases i with
    | zero => simp [List.set]
    | succ j =>
      simp only [List.set, List.getD_cons_succ, List.cons.injEq, true_and]
      exact ih j (by simp at h; omega)

lemma measure_set_lt (st : RoundState) (p3 : Player) (cb2 : Int)
    (hai : st.action_index < st.players.length)
    (hcb : st.current_bet ≤ cb2)
    (hlt : pweight cb2 p3 <
      pweight cb2 (st.players.getD st.action_index default)) :
    ((st.players.set st.action_index p3).map (pweight cb2)).sum <
      roundMeasure st := by
  have hs := sum_map_set (pweight cb2) st.players st.action_index p3 hai
  have hmono := sum_pweight_mono hcb st.players
  have hmono2 := pweight_mono (st.players.getD st.action_index default) hcb
  unfold roundMeasure
  omega

/-- A seat that blocks the exit test: in hand, chips behind, not caught
up with the current bet. -/
def Blocked (st : RoundState) (b : Nat) : Prop :=
  (st.players.getD b default).in_hand = true ∧
  0 < (st.players.getD b default).stack ∧
  (st.players.getD b default).amount_in_pot ≠ st.current_bet

lemma caughtUp_or_blocked (st : RoundState)
    (hstacks : ∀ p ∈ st.players, 0 ≤ p.stack) :
    caughtUp st = true ∨ ∃ b, b < st.players.length ∧ Blocked st b := by
  by_cases h : caughtUp st = true
  · exact Or.inl h
  · right
    rcases (not_iff_not.2 (caughtUp_iff st)).1 h with hneg
    push_neg at hneg
    obtain ⟨p, hp, hin, hne, hs⟩ := hneg
    obtain ⟨b, hblt, hbeq⟩ := List.mem_iff_getElem.1 hp
    refine ⟨b, hblt, ?_, ?_, ?_⟩ <;>
      rw [List.getD_eq_getElem _ _ hblt, hbeq]
    · exact hin
    · have := hstacks p hp
      omega
    · exact hne

lemma TermFrom_step (σ : Strategy) (st st2 : RoundState) (k k2 : Nat)
    (hstep : stepOnce σ st k = .ok (st2, k2)) (h : TermFrom σ st2 k2) :
    TermFrom σ st k := by
  by_cases hd : roundDone st2
  · exact ⟨1, (st2, k2), by
      rw [betLoop_succ, hstep]; dsimp only; rw [if_pos hd]⟩
  · obtain ⟨fuel, r, h2⟩ := h
    exact ⟨fuel + 1, r, by
      rw [betLoop_succ, hstep]; dsimp only; rw [if_neg hd]; exact h2⟩

lemma TermFrom_done (σ : Strategy) (st st2 : RoundState) (k k2 : Nat)
    (hstep : stepOnce σ st k = .ok (st2, k2)) (hd : roundDone st2 = true) :
    TermFrom σ st k :=
  ⟨1, (st2, k2), by rw [betLoop_succ, hstep]; dsimp only; rw [if_pos hd]⟩

lemma advance_cases (a n : Nat) (h : a < n) :
    ((a + 1) % n = a + 1 ∧ a + 1 < n) ∨ ((a + 1) % n = 0 ∧ a + 1 = n) := by
  by_cases h2 : a + 1 < n
  · exact Or.inl ⟨Nat.mod_eq_of_lt h2, h2⟩
  · have h3 : a + 1 = n := by omega
    exact Or.inr ⟨by rw [h3, Nat.mod_self], h3⟩

lemma option_check (p : Player) (hin : p.in_hand = true) :
    p.option 0 .Check = .ok (p, some (0, false)) := by
  simp [Player.option, hin, Player.check]

lemma option_fold (p : Player) (t : Int) (hin : p.in_hand = true) :
    p.option t .Fold = .ok (p.fold, some (0, false)) := by
  by_cases ht : t = 0 <;> simp [Player.option, hin, ht]

lemma option_allin (p : Player) (t : Int) (hin : p.in_hand = true) :
    p.option t .AllIn = .ok (p.all_in, some (p.stack, true)) := by
  by_cases ht : t = 0 <;> simp [Player.option, hin, ht]

lemma option_bet (p : Player) (m : Int) (hin : p.in_hand = true)
    (hms : m ≤ p.stack) :
    p.option 0 (.Bet m) =
      .ok ({ p with stack := p.stack - m }, some (m, true)) := by
  simp [Player.option, hin, Player.bet, not_lt.2 hms]

lemma option_raise (p : Player) (t m : Int) (hin : p.in_hand = true)
    (ht : t ≠ 0) (hms : m ≤ p.stack) :
    p.option t (.Raise m) =
      .ok ({ p with stack := p.stack - m }, some (m, true)) := by
  simp [Player.option, hin, ht, Player.bet, not_lt.2 hms]

lemma option_call (p : Player) (t : Int) (hin : p.in_hand = true)
    (ht : t ≠ 0) :
    p.option t .Call = .ok (p.call t, some (t, false)) := by
  simp [Player.option, hin, ht]

lemma set_ne_nil (l : List Player) (i : Nat) (x : Player) (h : l ≠ []) :
    l.set i x ≠ [] := by
  intro hcon
  have h2 := congrArg List.length hcon
  rw [List.length_set] at h2
  exact h (List.length_eq_zero.1 h2)

/-- What one loop iteration does on an acting seat, given the value
Player.option returned. -/
lemma stepOnce_acting (σ : Strategy) (st : RoundState) (k : Nat) (p : Player)
    (hp : st.players.getD st.action_index default = p)
    (hin : p.in_hand = true) (hstk : 0 < p.stack)
    (p2 : Player) (c : Int) (ir : Bool)
    (hopt : p.option (st.current_bet - p.amount_in_pot)
      (σ k p (st.current_bet - p.amount_in_pot)) = .ok (p2, some (c, ir))) :
    stepOnce σ st k = .ok (
      if ir = true ∧ p2.amount_in_pot + c > st.current_bet then
        { players := st.players.set st.action_index
            { p2 with amount_in_pot := p2.amount_in_pot + c },
          current_bet := p2.amount_in_pot + c,
          action_index := (st.action_index + 1) % st.players.length,
          last_raiser_index := st.action_index,
          total_pot := st.total_pot + c }
      else
        { players := st.players.set st.action_index
            { p2 with amount_in_pot := p2.amount_in_pot + c },
          current_bet := st.current_bet,
          action_index := (st.action_index + 1) % st.players.length,
          last_raiser_index := st.last_raiser_index,
          total_pot := st.total_pot + c }, k + 1) := by
  simp only [stepOnce]
  rw [hp, if_pos ⟨hin, hstk⟩, hopt]
  dsimp only
  by_cases h : ir = true ∧ p2.amount_in_pot + c > st.current_bet
  · rw [if_pos h, if_pos h]
  · rw [if_neg h, if_neg h]

lemma amount_add_zero (q : Player) :
    ({ q with amount_in_pot := q.amount_in_pot + 0 } : Player) = q := by
  cases q
  simp

/-- One loop iteration under a well-formed strategy: it succeeds,
preserves the state invariant and the seat count, advances the action
pointer, and either strictly decreases the measure or changes nothing
besides the action pointer (a skipped seat or a Check). -/
lemma step_spec (σ : Strategy) (hWF : WFStrategy σ) (st : RoundState)
    (k : Nat) (hinv : RoundInv st) :
    ∃ st2 k2, stepOnce σ st k = .ok (st2, k2) ∧
      RoundInv st2 ∧
      st2.players.length = st.players.length ∧
      st2.action_index = (st.action_index + 1) % st.players.length ∧
      (roundMeasure st2 < roundMeasure st ∨
        (st2.players = st.players ∧ st2.current_bet = st.current_bet ∧
         st2.last_raiser_index = st.last_raiser_index ∧
         ¬ Blocked st st.action_index)) := by
  obtain ⟨hne, hstacks, hai, hlr⟩ := hinv
  have hn : 0 < st.players.length := List.length_pos.2 hne
  have hadv : (st.action_index + 1) % st.players.length < st.players.length :=
    Nat.mod_lt _ hn
  generalize hp : st.players.getD st.action_index default = p
  have hmemstack : ∀ (q : Player), 0 ≤ q.stack →
      ∀ r ∈ st.players.set st.action_index q, 0 ≤ r.stack := by
    intro q hq r hr
    rcases List.mem_or_eq_of_mem_set hr with h2 | h2
    · exact hstacks r h2
    · rw [h2]; exact hq
  by_cases hact : p.in_hand = true ∧ 0 < p.stack
  case neg =>
    refine ⟨{ st with action_index := (st.action_index + 1) % st.players.length },
      k, ?_, ⟨hne, hstacks, hadv, hlr⟩, rfl, rfl, Or.inr ⟨rfl, rfl, rfl, ?_⟩⟩
    · simp only [stepOnce]
      rw [hp, if_neg hact]
    · intro hb
      obtain ⟨b1, b2, b3⟩ := hb
      rw [hp] at b1 b2
      exact hact ⟨b1, b2⟩
  case pos =>
    obtain ⟨hin, hstk⟩ := hact
    have hval := hWF k p (st.current_bet - p.amount_in_pot) hin hstk
    unfold validFor at hval
    by_cases ht : st.current_bet - p.amount_in_pot = 0
    · rw [if_pos ht] at hval
      rcases hval with ha | ha | ha | ⟨m, ha, hm0, hms⟩
      · -- Check: a stall
        have hstep := stepOnce_acting σ st k p hp hin hstk p 0 false
          (by rw [ha, ht, option_check p hin])
        rw [if_neg (by simp)] at hstep
        refine ⟨_, k + 1, hstep, ?_, by simp, by simp,
          Or.inr ⟨?_, rfl, rfl, ?_⟩⟩
        · exact ⟨set_ne_nil _ _ _ hne, hmemstack _ (by dsimp only; omega),
            by simpa using hadv, by simpa using hlr⟩
        · show st.players.set st.action_index
            ({ p with amount_in_pot := p.amount_in_pot + 0 }) = st.players
          rw [amount_add_zero, ← hp, set_getD_self st.players st.action_index hai]
        · intro hb
          obtain ⟨b1, b2, b3⟩ := hb
          rw [hp] at b3
          exact b3 (by omega)
      · -- Fold
        have hstep := stepOnce_acting σ st k p hp hin hstk p.fold 0 false
          (by rw [ha, ht]; exact option_fold p 0 hin)
        rw [if_neg (by simp)] at hstep
        refine ⟨_, k + 1, hstep,
          ⟨set_ne_nil _ _ _ hne,
            hmemstack _ (by dsimp only [Player.fold]; omega),
            by simpa using hadv, by simpa using hlr⟩,
          by simp, by simp, Or.inl ?_⟩
        show roundMeasure _ < roundMeasure st
        unfold roundMeasure
        apply measure_set_lt st _ _ hai le_rfl
        rw [hp]
        unfold pweight
        dsimp only [Player.fold]
        split_ifs <;> first | omega | (simp_all; omega) | simp_all
      · -- All-in, nothing owed
        have hstep := stepOnce_acting σ st k p hp hin hstk p.all_in p.stack true
          (by rw [ha, ht]; exact option_allin p 0 hin)
        by_cases hgt : p.all_in.amount_in_pot + p.stack > st.current_bet
        · rw [if_pos ⟨rfl, hgt⟩] at hstep
          refine ⟨_, k + 1, hstep,
            ⟨set_ne_nil _ _ _ hne,
              hmemstack _ (by dsimp only [Player.all_in]; omega),
              by simpa using hadv, by simpa using hai⟩,
            by simp, by simp, Or.inl ?_⟩
          show roundMeasure _ < roundMeasure st
          unfold roundMeasure
          apply measure_set_lt st _ _ hai
            (by dsimp only [Player.all_in] at hgt ⊢; omega)
          rw [hp]
          unfold pweight
          dsimp only [Player.all_in] at hgt ⊢
          split_ifs <;> first | omega | (simp_all; omega) | simp_all
        · rw [if_neg (fun hc => hgt hc.2)] at hstep
          refine ⟨_, k + 1, hstep,
            ⟨set_ne_nil _ _ _ hne,
              hmemstack _ (by dsimp only [Player.all_in]; omega),
              by simpa using hadv, by simpa using hlr⟩,
            by simp, by simp, Or.inl ?_⟩
          show roundMeasure _ < roundMeasure st
          unfold roundMeasure
          apply measure_set_lt st _ _ hai le_rfl
          rw [hp]
          unfold pweight
          dsimp only [Player.all_in] at hgt ⊢
          split_ifs <;> first | omega | (simp_all; omega) | simp_all
      · -- Bet m with 0 < m ≤ stack; since nothing is owed, a valid bet
        -- always raises above the current bet
        have hstep := stepOnce_acting σ st k p hp hin hstk
          { p with stack := p.stack - m } m true
          (by rw [ha, ht]; exact option_bet p m hin hms)
        by_cases hgt : ({ p with stack := p.stack - m } : Player).amount_in_pot
            + m > st.current_bet
        · rw [if_pos ⟨rfl, hgt⟩] at hstep
          refine ⟨_, k + 1, hstep,
            ⟨set_ne_nil _ _ _ hne, hmemstack _ (by dsimp only; omega),
              by simpa using hadv, by simpa using hai⟩,
            by simp, by simp, Or.inl ?_⟩
          show roundMeasure _ < roundMeasure st
          unfold roundMeasure
          apply measure_set_lt st _ _ hai (by dsimp only at hgt ⊢; omega)
          rw [hp]
          unfold pweight
          dsimp only at hgt ⊢
          split_ifs <;> first | omega | (simp_all; omega) | simp_all
        · exfalso
          dsimp only at hgt
          omega
    · rw [if_neg ht] at hval
      rcases hval with ha | ha | ha | ⟨m, ha, hm0, hms⟩
      · -- Call
        have hstep := stepOnce_acting σ st k p hp hin hstk
          (p.call (st.current_bet - p.amount_in_pot))
          (st.current_bet - p.amount_in_pot) false
          (by rw [ha]; exact option_call p _ hin ht)
        rw [if_neg (by simp)] at hstep
        refine ⟨_, k + 1, hstep,
          ⟨set_ne_nil _ _ _ hne,
            hmemstack _ (by
              unfold Player.call Player.all_in
              split_ifs <;> dsimp only <;> omega),
            by simpa using hadv, by simpa using hlr⟩,
          by simp, by simp, Or.inl ?_⟩
        show roundMeasure _ < roundMeasure st
        unfold roundMeasure
        apply measure_set_lt st _ _ hai le_rfl
        rw [hp]
        unfold pweight Player.call Player.all_in
        dsimp only
        split_ifs <;> first | omega | (simp_all; omega) | simp_all
      · -- Fold facing a bet
        have hstep := stepOnce_acting σ st k p hp hin hstk p.fold 0 false
          (by rw [ha]; exact option_fold p _ hin)
        rw [if_neg (by simp)] at hstep
        refine ⟨_, k + 1, hstep,
          ⟨set_ne_nil _ _ _ hne,
            hmemstack _ (by dsimp only [Player.fold]; omega),
            by simpa using hadv, by simpa using hlr⟩,
          by simp, by simp, Or.inl ?_⟩
        show roundMeasure _ < roundMeasure st
        unfold roundMeasure
        apply measure_set_lt st _ _ hai le_rfl
        rw [hp]
        unfold pweight
        dsimp only [Player.fold]
        split_ifs <;> first | omega | (simp_all; omega) | simp_all
      · -- All-in facing a bet
        have hstep := stepOnce_acting σ st k p hp hin hstk p.all_in p.stack true
          (by rw [ha]; exact option_allin p _ hin)
        by_cases hgt : p.all_in.amount_in_pot + p.stack > st.current_bet
        · rw [if_pos ⟨rfl, hgt⟩] at hstep
          refine ⟨_, k + 1, hstep,
            ⟨set_ne_nil _ _ _ hne,
              hmemstack _ (by dsimp only [Player.all_in]; omega),
              by simpa using hadv, by simpa using hai⟩,
            by simp, by simp, Or.inl ?_⟩
          show roundMeasure _ < roundMeasure st
          unfold roundMeasure
          apply measure_set_lt st _ _ hai
            (by dsimp only [Player.all_in] at hgt ⊢; omega)
          rw [hp]
          unfold pweight
          dsimp only [Player.all_in] at hgt ⊢
          split_ifs <;> first | omega | (simp_all; omega) | simp_all
        · rw [if_neg (fun hc => hgt hc.2)] at hstep
          refine ⟨_, k + 1, hstep,
            ⟨set_ne_nil _ _ _ hne,
              hmemstack _ (by dsimp only [Player.all_in]; omega),
              by simpa using hadv, by simpa using hlr⟩,
            by simp, by simp, Or.inl ?_⟩
          show roundMeasure _ < roundMeasure st
          unfold roundMeasure
          apply measure_set_lt st _ _ hai le_rfl
          rw [hp]
          unfold pweight
          dsimp only [Player.all_in] at hgt ⊢
          split_ifs <;> first | omega | (simp_all; omega) | simp_all
      · -- Raise m with 0 < m ≤ stack
        have hstep := stepOnce_acting σ st k p hp hin hstk
          { p with stack := p.stack - m } m true
          (by rw [ha]; exact option_raise p _ m hin ht hms)
        by_cases hgt : ({ p with stack := p.stack - m } : Player).amount_in_pot
            + m > st.current_bet
        · rw [if_pos ⟨rfl, hgt⟩] at hstep
          refine ⟨_, k + 1, hstep,
            ⟨set_ne_nil _ _ _ hne, hmemstack _ (by dsimp only; omega),
              by simpa using hadv, by simpa using hai⟩,
            by simp, by simp, Or.inl ?_⟩
          show roundMeasure _ < roundMeasure st
          unfold roundMeasure
          apply measure_set_lt st _ _ hai (by dsimp only at hgt ⊢; omega)
          rw [hp]
          unfold pweight
          dsimp only at hgt ⊢
          split_ifs <;> first | omega | (simp_all; omega) | simp_all
        · rw [if_neg (fun hc => hgt hc.2)] at hstep
          refine ⟨_, k + 1, hstep,
            ⟨set_ne_nil _ _ _ hne, hmemstack _ (by dsimp only; omega),
              by simpa using hadv, by simpa using hlr⟩,
            by simp, by simp, Or.inl ?_⟩
          show roundMeasure _ < roundMeasure st
          unfold roundMeasure
          apply measure_set_lt st _ _ hai le_rfl
          rw [hp]
          unfold pweight
          dsimp only at hgt ⊢
          split_ifs <;> first | omega | (simp_all; omega) | simp_all

/-- Loop iterations until the advanced action pointer lands on the last
raiser (between 1 and the number of seats). -/
def distTo (st : RoundState) : Nat :=
  if st.action_index < st.last_raiser_index then
    st.last_raiser_index - st.action_index
  else st.players.length - st.action_index + st.last_raiser_index

/-- Loop iterations until the action pointer reaches seat b (0 when the
seat acts in the very next iteration). -/
def distToSeat (st : RoundState) (b : Nat) : Nat :=
  if st.action_index ≤ b then b - st.action_index
  else st.players.length - st.action_index + b

lemma distTo_pos (st : RoundState) (hai : st.action_index < st.players.length) :
    1 ≤ distTo st := by
  unfold distTo
  split_ifs <;> omega

lemma distTo_step (n a lr : Nat) (ha : a < n) (hlr : lr < n) :
    ((a + 1) % n = lr ∧ (if a < lr then lr - a else n - a + lr) = 1) ∨
    ((a + 1) % n ≠ lr ∧
      (if (a + 1) % n < lr then lr - (a + 1) % n
       else n - (a + 1) % n + lr)
        = (if a < lr then lr - a else n - a + lr) - 1 ∧
      2 ≤ (if a < lr then lr - a else n - a + lr)) := by
  rcases advance_cases a n ha with ⟨h1, h2⟩ | ⟨h1, h2⟩ <;> rw [h1] <;>
    by_cases hb : (if a + 1 < n then a + 1 else 0) = lr
  · left
    rw [if_pos h2] at hb
    refine ⟨hb, ?_⟩
    split_ifs <;> omega
  · right
    rw [if_pos h2] at hb
    refine ⟨hb, ?_, ?_⟩ <;> split_ifs <;> omega
  · left
    rw [if_neg (by omega)] at hb
    refine ⟨hb, ?_⟩
    split_ifs <;> omega
  · right
    rw [if_neg (by omega)] at hb
    refine ⟨hb, ?_, ?_⟩ <;> split_ifs <;> omega

lemma distToSeat_step (n a b : Nat) (ha : a < n) (hb : b < n) (hne : a ≠ b) :
    (if (a + 1) % n ≤ b then b - (a + 1) % n else n - (a + 1) % n + b)
      = (if a ≤ b then b - a else n - a + b) - 1 ∧
    1 ≤ (if a ≤ b then b - a else n - a + b) := by
  rcases advance_cases a n ha with ⟨h1, h2⟩ | ⟨h1, h2⟩ <;> rw [h1] <;>
    constructor <;> split_ifs <;> omega

lemma distToSeat_zero (n a b : Nat) (ha : a < n) (hb : b < n)
    (h : (if a ≤ b then b - a else n - a + b) = 0) : a = b := by
  split_ifs at h <;> omega

/-- Once everyone is caught up, the loop closes within the current lap:
every further solicited action is either a Check (nothing changes) or a
measure decrease handled by the outer induction hypothesis. -/
lemma lap_term (σ : Strategy) (hWF : WFStrategy σ) (M : Nat)
    (IH : ∀ st2 k2, RoundInv st2 → roundMeasure st2 < M → TermFrom σ st2 k2) :
    ∀ (d : Nat) (st : RoundState) (k : Nat), RoundInv st →
      roundMeasure st ≤ M → caughtUp st = true → distTo st ≤ d →
      TermFrom σ st k := by
  intro d
  induction d with
  | zero =>
    intro st k hinv hm hc hd
    exact absurd hd (by have := distTo_pos st hinv.2.2.1; omega)
  | succ d ihd =>
    intro st k hinv hm hc hd
    obtain ⟨st2, k2, hstep, hinv2, hlen, hact2, hprog⟩ :=
      step_spec σ hWF st k hinv
    rcases hprog with hlt | ⟨hpl, hcb, hlrr, _⟩
    · exact TermFrom_step σ st st2 k k2 hstep (IH st2 k2 hinv2 (by omega))
    · have hc2 : caughtUp st2 = true := by
        unfold caughtUp at hc ⊢
        rw [hpl, hcb]
        exact hc
      obtain ⟨hne, hstacks, hai, hlr⟩ := hinv
      have hm2 : roundMeasure st2 = roundMeasure st := by
        unfold roundMeasure
        rw [hpl, hcb]
      rcases distTo_step st.players.length st.action_index
          st.last_raiser_index hai hlr with ⟨h1, h2⟩ | ⟨h1, h2, h3⟩
      · refine TermFrom_done σ st st2 k k2 hstep ?_
        unfold roundDone
        rw [Bool.and_eq_true, beq_iff_eq]
        exact ⟨by rw [hact2, hlrr]; exact h1, hc2⟩
      · refine TermFrom_step σ st st2 k k2 hstep
          (ihd st2 k2 ⟨?_, ?_, ?_, ?_⟩ (by omega) hc2 ?_)
        · rw [hpl]; exact hne
        · rw [hpl]; exact hstacks
        · rw [hpl, hact2]; exact Nat.mod_lt _ (List.length_pos.2 hne)
        · rw [hpl, hlrr]; exact hlr
        · have hd2 : distTo st2 = distTo st - 1 := by
            unfold distTo
            rw [hact2, hlrr, hpl]
            exact h2
          unfold distTo at hd ⊢
          unfold distTo at hd2
          omega

/-- While some seat is blocked (in hand, chips behind, not caught up),
the loop reaches that seat within the lap and its forced
Call/Raise/Fold/All-in strictly decreases the measure. -/
lemma blocked_term (σ : Strategy) (hWF : WFStrategy σ) (M : Nat)
    (IH : ∀ st2 k2, RoundInv st2 → roundMeasure st2 < M → TermFrom σ st2 k2) :
    ∀ (d : Nat) (st : RoundState) (k : Nat), RoundInv st →
      roundMeasure st ≤ M →
      (∃ b, b < st.players.length ∧ Blocked st b ∧ distToSeat st b ≤ d) →
      TermFrom σ st k := by
  intro d
  induction d with
  | zero =>
    intro st k hinv hm ⟨b, hblt, hbl, hd⟩
    obtain ⟨st2, k2, hstep, hinv2, hlen, hact2, hprog⟩ :=
      step_spec σ hWF st k hinv
    rcases hprog with hlt | ⟨hpl, hcb, hlrr, hnb⟩
    · exact TermFrom_step σ st st2 k k2 hstep (IH st2 k2 hinv2 (by omega))
    · exfalso
      have hab : st.action_index = b :=
        distToSeat_zero st.players.length st.action_index b
          hinv.2.2.1 hblt (by unfold distToSeat at hd; omega)
      exact hnb (hab ▸ hbl)
  | succ d ihd =>
    intro st k hinv hm ⟨b, hblt, hbl, hd⟩
    obtain ⟨st2, k2, hstep, hinv2, hlen, hact2, hprog⟩ :=
      step_spec σ hWF st k hinv
    rcases hprog with hlt | ⟨hpl, hcb, hlrr, hnb⟩
    · exact TermFrom_step σ st st2 k k2 hstep (IH st2 k2 hinv2 (by omega))
    · have hm2 : roundMeasure st2 = roundMeasure st := by
        unfold roundMeasure
        rw [hpl, hcb]
      have hab : st.action_index ≠ b := by
        intro hab
        exact hnb (hab ▸ hbl)
      have hbl2 : Blocked st2 b := by
        obtain ⟨b1, b2, b3⟩ := hbl
        exact ⟨by rw [hpl]; exact b1, by rw [hpl]; exact b2,
          by rw [hpl, hcb]; exact b3⟩
      obtain ⟨hstp, hpos⟩ := distToSeat_step st.players.length
        st.action_index b hinv.2.2.1 hblt hab
      refine TermFrom_step σ st st2 k k2 hstep
        (ihd st2 k2 hinv2 (by omega) ⟨b, by rw [hpl]; exact hblt, hbl2, ?_⟩)
      have hd2 : distToSeat st2 b = distToSeat st b - 1 := by
        unfold distToSeat
        rw [hact2, hpl]
        exact hstp
      unfold distToSeat at hd hd2 ⊢
      omega

/-- Under a well-formed strategy, from any invariant-satisfying state
the betting round loop returns. -/
lemma betLoop_terminates (σ : Strategy) (hWF : WFStrategy σ) :
    ∀ (M : Nat) (st : RoundState) (k : Nat), RoundInv st →
      roundMeasure st ≤ M → TermFrom σ st k := by
  intro M
  induction M with
  | zero =>
    intro st k hinv hm
    have IH : ∀ st2 k2, RoundInv st2 → roundMeasure st2 < 0 →
        TermFrom σ st2 k2 := fun _ _ _ h => absurd h (by omega)
    rcases caughtUp_or_blocked st hinv.2.1 with hc | ⟨b, hblt, hbl⟩
    · exact lap_term σ hWF 0 IH (distTo st) st k hinv hm hc le_rfl
    · exact blocked_term σ hWF 0 IH (distToSeat st b) st k hinv hm
        ⟨b, hblt, hbl, le_rfl⟩
  | succ M ih =>
    intro st k hinv hm
    have IH : ∀ st2 k2, RoundInv st2 → roundMeasure st2 < M + 1 →
        TermFrom σ st2 k2 := fun st2 k2 h1 h2 => ih st2 k2 h1 (by omega)
    rcases caughtUp_or_blocked st hinv.2.1 with hc | ⟨b, hblt, hbl⟩
    · exact lap_term σ hWF (M + 1) IH (distTo st) st k hinv hm hc le_rfl
    · exact blocked_term σ hWF (M + 1) IH (distToSeat st b) st k hinv hm
        ⟨b, hblt, hbl, le_rfl⟩

/-- Strategy of the C10 counterexample: bet 5 once when nothing is
owed and at least 5 chips are behind, otherwise check; call when
something is owed.  Every action it produces is recognized and within
the stack. -/
def c10sigma : Strategy := fun _ p t =>
  if t = 0 then
    (if p.amount_in_pot < 5 ∧ 5 ≤ p.stack then .Bet 5 else .Check)
  else .Call

/-- Seating of the C10 counterexample: seat B carries a negative stack,
which the loop can neither ask to act (stack not positive) nor accept
as caught up (stack not zero). -/
def c10players : List Player := [mkPlayer ("A") 10, mkPlayer ("B") (-5)]

/-- The state the counterexample round cycles through forever. -/
def c10X : RoundState :=
  { players :=
      [{ name := "A", stack := 5, in_hand := true, amount_in_pot := 5,
         is_dealer := false, is_smallblind := false, is_bigblind := false,
         current_bet := 0 },
       { name := "B", stack := -5, in_hand := true, amount_in_pot := 0,
         is_dealer := false, is_smallblind := false, is_bigblind := false,
         current_bet := 0 }],
    current_bet := 5, action_index := 0, last_raiser_index := 0,
    total_pot := 5 }

/-- The C10 counterexample round never returns, whatever fuel. -/
def c10diverges : Prop :=
  ∀ (fuel : Nat) (r : RoundState × Nat),
    betting_round_postflop c10sigma fuel c10players 0 0 0 ≠ .ok r

lemma c10_cycle : ∀ (m k : Nat) (r : RoundState × Nat),
    betLoop c10sigma m c10X k ≠ .ok r := by
  intro m
  induction m using Nat.strong_induction_on with
  | _ m ihm =>
    match m with
    | 0 => intro k r h; simp [betLoop] at h
    | 1 =>
      intro k r h
      have he : betLoop c10sigma 1 c10X k = .error .fuelOut := rfl
      rw [he] at h
      cases h
    | m + 2 =>
      intro k r h
      have he : betLoop c10sigma (m + 2) c10X k =
          betLoop c10sigma m c10X (k + 1) := rfl
      rw [he] at h
      exact ihm m (by omega) (k + 1) r h

/-- C10 counterexample: the strategy obeys every hypothesis of the
claim (recognized actions, positive bet amounts within the acting
stack), the seating is non-empty, yet the post-flop betting round never
terminates: the negative stack of seat B keeps the exit test false forever
while seat A can only check. -/
theorem counterexample_C10 : WFStrategy c10sigma ∧ c10diverges := by
  constructor
  · intro k p t hin hst
    unfold validFor c10sigma
    by_cases ht : t = 0
    · rw [if_pos ht, if_pos ht]
      by_cases hc : p.amount_in_pot < 5 ∧ 5 ≤ p.stack
      · rw [if_pos hc]
        exact Or.inr (Or.inr (Or.inr ⟨5, rfl, by omega, hc.2⟩))
      · rw [if_neg hc]
        exact Or.inl rfl
    · rw [if_neg ht, if_neg ht]
      exact Or.inl rfl
  · intro fuel r h
    match fuel with
    | 0 =>
      have he : betting_round_postflop c10sigma 0 c10players 0 0 0 =
          .error .fuelOut := rfl
      rw [he] at h; cases h
    | 1 =>
      have he : betting_round_postflop c10sigma 1 c10players 0 0 0 =
          .error .fuelOut := rfl
      rw [he] at h; cases h
    | 2 =>
      have he : betting_round_postflop c10sigma 2 c10players 0 0 0 =
          .error .fuelOut := rfl
      rw [he] at h; cases h
    | m + 3 =>
      have he : betting_round_postflop c10sigma (m + 3) c10players 0 0 0 =
          betLoop c10sigma m c10X 1 := rfl
      rw [he] at h
      exact c10_cycle m 1 r h

/-- C10 (amended with the additional hypothesis that the stack of
every player is non-negative at the start of the round, which the
counterexample shows is needed).  Under any strategy whose solicited
actions are recognized for their situation and whose bet and raise
amounts are positive integers within the stack of the acting player, both
betting-round loops terminate and return an updated pot, for every
non-empty seating. -/
theorem claim_C10 (σ : Strategy) (players : List Player)
    (bb_index dealer_position : Nat) (total_pot bb_amount : Int)
    (hWF : WFStrategy σ) (hne : players ≠ [])
    (hstacks : ∀ p ∈ players, 0 ≤ p.stack) :
    (∃ fuel r, betting_round_preflop σ fuel players bb_index total_pot
      bb_amount 0 = .ok r) ∧
    (∃ fuel r, betting_round_postflop σ fuel players dealer_position
      total_pot 0 = .ok r) := by
  have hn : 0 < players.length := List.length_pos.2 hne
  constructor
  · have ht := betLoop_terminates σ hWF
      (roundMeasure
        { players := players, current_bet := bb_amount,
          action_index := (bb_index + 1) % players.length,
          last_raiser_index := (bb_index + 1) % players.length,
          total_pot := total_pot })
      { players := players, current_bet := bb_amount,
        action_index := (bb_index + 1) % players.length,
        last_raiser_index := (bb_index + 1) % players.length,
        total_pot := total_pot }
      0 ⟨hne, hstacks, Nat.mod_lt _ hn, Nat.mod_lt _ hn⟩ le_rfl
    obtain ⟨fuel, r, hr⟩ := ht
    exact ⟨fuel, r, hr⟩
  · have hne2 : players.map (fun p =>
        ({ p with amount_in_pot := 0 } : Player)) ≠ [] := by
      simpa using hne
    have hstacks2 : ∀ p ∈ players.map (fun p =>
        ({ p with amount_in_pot := 0 } : Player)), 0 ≤ p.stack := by
      intro p hp
      obtain ⟨q, hq, hqe⟩ := List.mem_map.1 hp
      rw [← hqe]
      exact hstacks q hq
    have hn2 : (players.map (fun p =>
        ({ p with amount_in_pot := 0 } : Player))).length = players.length :=
      List.length_map ..
    have ht := betLoop_terminates σ hWF
      (roundMeasure
        { players := players.map (fun p =>
            ({ p with amount_in_pot := 0 } : Player)),
          current_bet := 0,
          action_index := (dealer_position + 1) % players.length,
          last_raiser_index := (dealer_position + 1) % players.length,
          total_pot := total_pot })
      { players := players.map (fun p =>
          ({ p with amount_in_pot := 0 } : Player)),
        current_bet := 0,
        action_index := (dealer_position + 1) % players.length,
        last_raiser_index := (dealer_position + 1) % players.length,
        total_pot := total_pot }
      0 ⟨hne2, hstacks2, by rw [hn2]; exact Nat.mod_lt _ hn,
        by rw [hn2]; exact Nat.mod_lt _ hn⟩ le_rfl
    obtain ⟨fuel, r, hr⟩ := ht
    exact ⟨fuel, r, hr⟩

/-- Witness for C10: two players of 1000 chips, big blind seat 0, pot
30, strategy that calls what is owed and otherwise checks. -/
theorem claim_C10_witness :
    (∃ fuel r, betting_round_preflop sigmaCallCheck fuel
      [mkPlayer ("W1") 1000, mkPlayer ("W2") 1000] 0 30 20 0 = .ok r) ∧
    (∃ fuel r, betting_round_postflop sigmaCallCheck fuel
      [mkPlayer ("W1") 1000, mkPlayer ("W2") 1000] 0 30 0 = .ok r) :=
  claim_C10 sigmaCallCheck [mkPlayer ("W1") 1000, mkPlayer ("W2") 1000] 0 0
    30 20
    (by
      intro k p t hin hst
      unfold validFor sigmaCallCheck
      by_cases ht : t = 0
      · rw [if_pos ht, if_pos ht]
        exact Or.inl rfl
      · rw [if_neg ht, if_neg ht]
        exact Or.inl rfl)
    (by decide) (by decide)

end Texas
